import Mathlib

/-!
Verification of the omega-topology-fullstack data layer.

The development shallowly embeds the two source files `HoParameter.ts`
(the `HoParameterSet` / `HoParameter` / `MitabParameter` classes and the
`trim` filtering pass) and `PSICQuic.ts` (the deduplicating, symmetric
pair-indexed interaction store) into Lean.

Modelling conventions:
* JavaScript numbers are modelled by the inductive `JsNum`: `NaN`, the
  two infinities, or a finite value given as an explicit (not necessarily
  reduced) integer fraction with positive denominator.  `Number()` and
  `parseInt()` string coercion, arithmetic (including `0 / 0 = NaN` and
  division by zero giving an infinity) and the comparison operators follow
  the JavaScript semantics: every comparison against `NaN` is false, the
  infinities compare as expected, and comparisons of finite values are
  integer cross-multiplications.  Double rounding, overflow to infinity
  near 1e308 and signed zero are not modelled.
* `Set<string>` filter arguments are modelled by `Option (List String)`
  with membership via `List.contains` (`undefined` is `none`).
* Mutation is modelled by explicit state passing: methods take the object
  and return the updated object.
* A JavaScript exception (the `TypeError` raised by reading a property of
  `undefined`) is modelled by `Except`: a method that can throw returns
  `Except TrimError _`, and `.error` is the thrown exception.  On a throw
  the JS object is left partially mutated; the model only reports the
  error, which is all the claims below inspect.
* `JSON.stringify` of the plain objects produced by
  `HoParameterSet.toString` is injective on those objects, so the
  serialized string is modelled by the object itself.
-/

/-! ## JavaScript numeric model -/

/-- An explicit integer fraction `num / den`.  Every finite value the
embedding constructs has a positive denominator; the fraction is not
reduced, which keeps all arithmetic plain integer computation. -/
structure Frac where
  num : ℤ
  den : ℕ
deriving DecidableEq, Repr

/-- The fraction denoting the integer `n`. -/
def Frac.ofInt (n : ℤ) : Frac := { num := n, den := 1 }

/-- A JavaScript number as this code observes it: `NaN`, one of the two
infinities, or a finite value.  Finite values are exact rationals: double
rounding and overflow to infinity at ~1e308 are not modelled, and signed
zero is not distinguished (a zero divisor signs the resulting infinity by
the dividend alone). -/
inductive JsNum where
  | nan
  | posInf
  | negInf
  | fin (f : Frac)
deriving DecidableEq, Repr

/-- Is this value `NaN`? -/
def JsNum.isNaN : JsNum → Bool
  | .nan => true
  | _ => false

/-- `a < t` for a finite threshold `t`, with JS semantics: false on `NaN`,
true on `-Infinity`, false on `Infinity`, an integer cross-multiplication
on finite values. -/
def jLt : JsNum → Frac → Bool
  | .nan, _ => false
  | .posInf, _ => false
  | .negInf, _ => true
  | .fin a, t => decide (a.num * t.den < t.num * a.den)

/-- `a > t` for a finite threshold `t`, with JS semantics. -/
def jGt : JsNum → Frac → Bool
  | .nan, _ => false
  | .posInf, _ => true
  | .negInf, _ => false
  | .fin a, t => decide (t.num * a.den < a.num * t.den)

/-- `a >= t` for a finite threshold `t`, with JS semantics (false on
`NaN`, true on `Infinity`). -/
def jGe : JsNum → Frac → Bool
  | .nan, _ => false
  | .posInf, _ => true
  | .negInf, _ => false
  | .fin a, t => decide (t.num * a.den ≤ a.num * t.den)

/-- `a <= t` for a finite threshold `t`, with JS semantics. -/
def jLe : JsNum → Frac → Bool
  | .nan, _ => false
  | .posInf, _ => false
  | .negInf, _ => true
  | .fin a, t => decide (a.num * t.den ≤ t.num * a.den)

/-- JS multiplication: `NaN` propagates, `Infinity * 0 = NaN`, infinities
multiply by sign. -/
def jMul : JsNum → JsNum → JsNum
  | .nan, _ => .nan
  | _, .nan => .nan
  | .posInf, .posInf => .posInf
  | .posInf, .negInf => .negInf
  | .negInf, .posInf => .negInf
  | .negInf, .negInf => .posInf
  | .posInf, .fin b => if 0 < b.num then .posInf else if b.num < 0 then .negInf else .nan
  | .negInf, .fin b => if 0 < b.num then .negInf else if b.num < 0 then .posInf else .nan
  | .fin a, .posInf => if 0 < a.num then .posInf else if a.num < 0 then .negInf else .nan
  | .fin a, .negInf => if 0 < a.num then .negInf else if a.num < 0 then .posInf else .nan
  | .fin a, .fin b => .fin { num := a.num * b.num, den := a.den * b.den }

/-- JS addition: `NaN` propagates, `Infinity + -Infinity = NaN`. -/
def jAdd : JsNum → JsNum → JsNum
  | .nan, _ => .nan
  | _, .nan => .nan
  | .posInf, .negInf => .nan
  | .negInf, .posInf => .nan
  | .posInf, _ => .posInf
  | .negInf, _ => .negInf
  | .fin _, .posInf => .posInf
  | .fin _, .negInf => .negInf
  | .fin a, .fin b =>
    .fin { num := a.num * b.den + b.num * a.den, den := a.den * b.den }

/-- JS subtraction: `NaN` propagates, `Infinity - Infinity = NaN`. -/
def jSub : JsNum → JsNum → JsNum
  | .nan, _ => .nan
  | _, .nan => .nan
  | .posInf, .posInf => .nan
  | .negInf, .negInf => .nan
  | .posInf, _ => .posInf
  | .negInf, _ => .negInf
  | .fin _, .posInf => .negInf
  | .fin _, .negInf => .posInf
  | .fin a, .fin b =>
    .fin { num := a.num * b.den - b.num * a.den, den := a.den * b.den }

/-- JS division: `NaN` propagates, `Infinity / Infinity = NaN`, a finite
value over an infinity is `0`, a nonzero finite value over zero is an
infinity signed by the dividend, and `0 / 0 = NaN`.  In the finite/finite
case the sign is carried by the numerator so the denominator stays
positive. -/
def jDiv : JsNum → JsNum → JsNum
  | .nan, _ => .nan
  | _, .nan => .nan
  | .posInf, .posInf => .nan
  | .posInf, .negInf => .nan
  | .negInf, .posInf => .nan
  | .negInf, .negInf => .nan
  | .posInf, .fin b => if 0 ≤ b.num then .posInf else .negInf
  | .negInf, .fin b => if 0 ≤ b.num then .negInf else .posInf
  | .fin _, .posInf => .fin (.ofInt 0)
  | .fin _, .negInf => .fin (.ofInt 0)
  | .fin a, .fin b =>
    if b.num = 0 then
      if a.num = 0 then .nan
      else if 0 < a.num then .posInf else .negInf
    else
      .fin { num := if 0 ≤ b.num then a.num * b.den else -(a.num * b.den),
             den := a.den * b.num.natAbs }

/-- Digits of a decimal numeral to its value. -/
def digitsVal (cs : List Char) : ℕ :=
  cs.foldl (fun a c => a * 10 + (c.toNat - 48)) 0

/-- Hexadecimal digit test. -/
def isHexDigit (c : Char) : Bool :=
  c.isDigit || ('a' ≤ c && c ≤ 'f') || ('A' ≤ c && c ≤ 'F')

/-- Value of one hexadecimal digit. -/
def hexDigitVal (c : Char) : ℕ :=
  if c.isDigit then c.toNat - 48
  else if 'a' ≤ c && c ≤ 'f' then c.toNat - 87
  else c.toNat - 55

/-- Digits of a hexadecimal numeral to its value. -/
def hexVal (cs : List Char) : ℕ :=
  cs.foldl (fun a c => a * 16 + hexDigitVal c) 0

/-- Octal digit test. -/
def isOctalDigit (c : Char) : Bool :=
  '0' ≤ c && c ≤ '7'

/-- Digits of an octal numeral to its value. -/
def octVal (cs : List Char) : ℕ :=
  cs.foldl (fun a c => a * 8 + (c.toNat - 48)) 0

/-- Binary digit test. -/
def isBinDigit (c : Char) : Bool :=
  c = '0' || c = '1'

/-- Digits of a binary numeral to its value. -/
def binVal (cs : List Char) : ℕ :=
  cs.foldl (fun a c => a * 2 + (c.toNat - 48)) 0

/-- Models JavaScript `parseInt` on string input (no radix argument):
leading whitespace is skipped, an optional sign is read, a `0x`/`0X`
prefix switches to hexadecimal; parsing stops at the first invalid
character, and no digit at all gives `NaN`. -/
def jsParseInt (s : String) : JsNum :=
  let cs := s.data.dropWhile Char.isWhitespace
  let (neg, cs1) :=
    match cs with
    | '-' :: r => (true, r)
    | '+' :: r => (false, r)
    | r => (false, r)
  let sgn : ℤ → ℤ := fun n => if neg then -n else n
  match cs1 with
  | '0' :: x :: r =>
    if x = 'x' ∨ x = 'X' then
      let hs := r.takeWhile isHexDigit
      if hs.isEmpty then .nan else .fin (.ofInt (sgn (hexVal hs)))
    else
      let ds := ('0' :: x :: r).takeWhile Char.isDigit
      if ds.isEmpty then .nan else .fin (.ofInt (sgn (digitsVal ds)))
  | _ =>
    let ds := cs1.takeWhile Char.isDigit
    if ds.isEmpty then .nan else .fin (.ofInt (sgn (digitsVal ds)))

/-- The decimal part of `Number()`: an optional sign, the literal
`Infinity`, or digits with an optional fractional part and an optional
decimal exponent; the whole remainder must be consumed. -/
def jsNumberDec (cs1 : List Char) (neg : Bool) : JsNum :=
  let sgn : ℤ → ℤ := fun n => if neg then -n else n
  if cs1 = "Infinity".data then (if neg then .negInf else .posInf)
  else
    let intPart := cs1.takeWhile Char.isDigit
    let rest1 := cs1.dropWhile Char.isDigit
    let (fracPart, rest2) :=
      match rest1 with
      | '.' :: r => (r.takeWhile Char.isDigit, r.dropWhile Char.isDigit)
      | r => (([] : List Char), r)
    if intPart.isEmpty ∧ fracPart.isEmpty then .nan
    else
      let mnum : ℤ := digitsVal intPart * 10 ^ fracPart.length + digitsVal fracPart
      let mden : ℕ := 10 ^ fracPart.length
      match rest2 with
      | [] => .fin { num := sgn mnum, den := mden }
      | e :: r3 =>
        if e = 'e' ∨ e = 'E' then
          let (eneg, r4) :=
            match r3 with
            | '-' :: rr => (true, rr)
            | '+' :: rr => (false, rr)
            | rr => (false, rr)
          if ¬r4.isEmpty ∧ r4.all Char.isDigit then
            if eneg then .fin { num := sgn mnum, den := mden * 10 ^ digitsVal r4 }
            else .fin { num := sgn (mnum * 10 ^ digitsVal r4), den := mden }
          else .nan
        else .nan

/-- Models JavaScript `Number()` on string input: surrounding whitespace
is trimmed, the empty remainder is `0`; an (unsigned) `0x`/`0o`/`0b`
numeric literal, or an optionally signed decimal literal — digits with
optional fraction and decimal exponent — or the literal `Infinity`;
anything else is `NaN`. -/
def jsNumber (s : String) : JsNum :=
  let cs :=
    ((s.data.dropWhile Char.isWhitespace).reverse.dropWhile Char.isWhitespace).reverse
  if cs.isEmpty then .fin (.ofInt 0)
  else
    match cs with
    | '0' :: 'x' :: r =>
      if ¬r.isEmpty ∧ r.all isHexDigit then .fin (.ofInt (hexVal r)) else .nan
    | '0' :: 'X' :: r =>
      if ¬r.isEmpty ∧ r.all isHexDigit then .fin (.ofInt (hexVal r)) else .nan
    | '0' :: 'o' :: r =>
      if ¬r.isEmpty ∧ r.all isOctalDigit then .fin (.ofInt (octVal r)) else .nan
    | '0' :: 'O' :: r =>
      if ¬r.isEmpty ∧ r.all isOctalDigit then .fin (.ofInt (octVal r)) else .nan
    | '0' :: 'b' :: r =>
      if ¬r.isEmpty ∧ r.all isBinDigit then .fin (.ofInt (binVal r)) else .nan
    | '0' :: 'B' :: r =>
      if ¬r.isEmpty ∧ r.all isBinDigit then .fin (.ofInt (binVal r)) else .nan
    | '-' :: r => jsNumberDec r true
    | '+' :: r => jsNumberDec r false
    | r => jsNumberDec r false

/-- `parseInt(data[i])`: an out-of-range access yields `undefined`, and
`parseInt(undefined)` is `NaN`. -/
def jsParseIntAt (l : List String) (i : ℕ) : JsNum :=
  match l.get? i with
  | some s => jsParseInt s
  | none => .nan

/-- `Number(data[i])`: an out-of-range access yields `undefined`, and
`Number(undefined)` is `NaN`. -/
def jsNumberAt (l : List String) (i : ℕ) : JsNum :=
  match l.get? i with
  | some s => jsNumber s
  | none => .nan

/-! ## HoParameter and MitabParameter (`HoParameter.ts`) -/

/-- Modelled from the spec: the external `PSQData` EvidenceRecord value
type (its parser lives outside this repository).  Only the accessors this
core consumes are represented: the unordered identifier pair `ids`, the
publication id `pmid`, the `source` name, the detection method code and
the taxon id list.  Its equality predicate `equal` is content-level
equality, hence the derived decidable equality. -/
structure PSQData where
  ids : String × String
  pmid : String
  source : String
  interactionDetectionMethod : String
  taxid : List String
deriving DecidableEq, Repr

/-- ASCII lowercasing of `source.toLowerCase()` (JavaScript lowercases the
source name; the sources this code ever sees are ASCII). -/
def jsToLower (s : String) : String :=
  String.mk (s.data.map Char.toLower)

/-- Modelled from the spec: the EvidenceRecord equality predicate
(content-level). -/
def PSQData.equal (a b : PSQData) : Bool :=
  decide (a = b)

/-- One homology support: the raw field vector and a validity flag
(class `HoParameter`). -/
structure HoParameter where
  data : List String
  valid : Bool := true
deriving DecidableEq, Repr

namespace HoParameter

/-- Homolog sequence length: `parseInt(data[3]) - parseInt(data[2]) + 1`. -/
def length (p : HoParameter) : JsNum :=
  jAdd (jSub (jsParseIntAt p.data 3) (jsParseIntAt p.data 2)) (.fin (.ofInt 1))

/-- Identifier (accession number) of the homolog: `data[0]`. -/
def template (p : HoParameter) : Option String :=
  p.data.get? 0

/-- Sequence similarity percentage: `100 * Number(data[7]) / length`. -/
def simPct (p : HoParameter) : JsNum :=
  jDiv (jMul (.fin (.ofInt 100)) (jsNumberAt p.data 7)) p.length

/-- Sequence identity percentage: `100 * Number(data[8]) / length`. -/
def idPct (p : HoParameter) : JsNum :=
  jDiv (jMul (.fin (.ofInt 100)) (jsNumberAt p.data 8)) p.length

/-- Sequence coverage percentage: `100 * length / parseInt(data[1])`. -/
def cvPct (p : HoParameter) : JsNum :=
  jDiv (jMul (.fin (.ofInt 100)) p.length) (jsParseIntAt p.data 1)

/-- E-value: `Number(data[9])`. -/
def eValue (p : HoParameter) : JsNum :=
  jsNumberAt p.data 9

/-- None of the four derived values is `NaN` (infinities allowed). -/
def nanFreeDerived (p : HoParameter) : Bool :=
  !p.simPct.isNaN && !p.idPct.isNaN && !p.cvPct.isNaN && !p.eValue.isNaN

end HoParameter

/-- Encapsulates a `PSQData` together with a validity flag
(class `MitabParameter`). -/
structure MitabParameter where
  data : PSQData
  valid : Bool := true
deriving DecidableEq, Repr

/-! ## HoParameterSet (`HoParameter.ts`) -/

/-- The taxon search mode `TAXON_EVERY`. -/
def TAXON_EVERY : ℕ := 0

/-- The taxon search mode `TAXON_SOME`. -/
def TAXON_SOME : ℕ := 1

/-- The per-candidate-link aggregate (class `HoParameterSet`): two parallel
sequences of homology supports plus one sequence of evidence groups, and a
visibility flag. -/
structure HoParameterSet where
  lowQueryParam : List HoParameter := []
  highQueryParam : List HoParameter := []
  mitabCouples : List (List MitabParameter) := []
  visible : Bool := true
deriving DecidableEq, Repr

/-- The reason record built by the `logged` branch of `trim`: each
criterion is either passing (`false` in JS) or a failure message string. -/
inductive FailReason
  | pass
  | fail (msg : String)
deriving DecidableEq, Repr

/-- The `TrimFailReason` record of the source. -/
structure TrimFailReason where
  identity : FailReason := .pass
  similarity : FailReason := .pass
  e_value : FailReason := .pass
  coverage : FailReason := .pass
deriving DecidableEq, Repr

/-- Options object of `HoParameterSet.trim`, with the source's defaults. -/
structure TrimOptions where
  simPct : Frac := .ofInt 0
  idPct : Frac := .ofInt 0
  cvPct : Frac := .ofInt 0
  eValue : Frac := .ofInt 1
  exp_methods : Option (List String) := none
  taxons : Option (List String) := none
  definitive : Bool := false
  logged : Bool := false
  destroy_identical : Bool := false

namespace HoParameterSet

/-- `new HoParameterSet`: created empty. -/
def new : HoParameterSet := {}

/-- `add(x, y)`: push a fresh `HoParameter` on both sides and an empty
evidence group. -/
def add (s : HoParameterSet) (x y : List String) : HoParameterSet :=
  { s with
    lowQueryParam := s.lowQueryParam ++ [{ data := x }],
    highQueryParam := s.highQueryParam ++ [{ data := y }],
    mitabCouples := s.mitabCouples ++ [[]] }

/-- `remove()`: empties `lowQueryParam` and `highQueryParam` and clears
`visible`; `mitabCouples` is left untouched by the source. -/
def remove (s : HoParameterSet) : HoParameterSet :=
  { s with lowQueryParam := [], highQueryParam := [], visible := false }

/-- Number of valid homologies (`get length`). -/
def size (s : HoParameterSet) : ℕ :=
  (s.lowQueryParam.filter (fun e => e.valid)).length

/-- Shape of the argument of the static deserializer `from`. -/
structure FromObj where
  lowQueryParam : List HoParameter
  highQueryParam : List HoParameter
  visible : Bool

/-- The static `from` (`from` is a Lean keyword, hence the spec's name
`fromSnapshot`): rebuilds the homology rows with their serialized validity
and restores `visible`; `mitabCouples` keeps the constructor default
`[]`. -/
def fromSnapshot (obj : FromObj) : HoParameterSet :=
  { lowQueryParam := obj.lowQueryParam.map (fun l => { data := l.data, valid := l.valid }),
    highQueryParam := obj.highQueryParam.map (fun l => { data := l.data, valid := l.valid }),
    mitabCouples := [],
    visible := obj.visible }

/-- The parallel-sequence length invariant of the spec:
`len(low) == len(high) == len(evidenceGroups)`. -/
def lenInvariant (s : HoParameterSet) : Prop :=
  s.lowQueryParam.length = s.highQueryParam.length ∧
    s.highQueryParam.length = s.mitabCouples.length

instance (s : HoParameterSet) : Decidable s.lenInvariant := by
  unfold lenInvariant; infer_instance

end HoParameterSet

/-! ## Serialization (`HoParameterSet.toString`) -/

/-- The plain object produced by `toString` before `JSON.stringify`
(a serialized `HoParameter` is its `{data, valid}` record; note there is
no `visible` key in the source's object literal). -/
structure SerializedHoParameterSet where
  lowQueryParam : List HoParameter
  highQueryParam : List HoParameter
  mitabCouples : List (List PSQData)
deriving DecidableEq, Repr

/-- The `lowQueryParam.filter` callback of `toString` with its side effect
on the `mitabCouples` accumulator: keeps valid rows, and for each valid
row whose index exists in `mitabCouples` pushes that group's valid
entries' data. -/
def serializeLow (mit : List (List MitabParameter)) :
    List HoParameter → ℕ → List HoParameter × List (List PSQData)
  | [], _ => ([], [])
  | e :: rest, i =>
    let (lows, groups) := serializeLow mit rest (i + 1)
    if e.valid then
      match mit.get? i with
      | some grp =>
          (e :: lows, ((grp.filter (fun m => m.valid)).map (fun m => m.data)) :: groups)
      | none => (e :: lows, groups)
    else (lows, groups)

/-- `toString()`: the serialized snapshot object. -/
def HoParameterSet.toString (s : HoParameterSet) : SerializedHoParameterSet :=
  let (lows, groups) := serializeLow s.mitabCouples s.lowQueryParam 0
  { lowQueryParam := lows,
    highQueryParam := s.highQueryParam.filter (fun e => e.valid),
    mitabCouples := groups }

/-- Restatement of the spec's description of the snapshot: the valid low
rows, the valid high rows, and — for each valid low index that has a
same-index evidence group — the valid entries of that group. -/
def HoParameterSet.snapshotSpec (s : HoParameterSet) : SerializedHoParameterSet :=
  { lowQueryParam := s.lowQueryParam.filter (fun e => e.valid),
    highQueryParam := s.highQueryParam.filter (fun e => e.valid),
    mitabCouples := s.lowQueryParam.enum.filterMap (fun p =>
      if p.2.valid then
        (s.mitabCouples.get? p.1).map
          (fun grp => (grp.filter (fun m => m.valid)).map (fun m => m.data))
      else none) }

/-! ## The trim pass (`HoParameterSet.trim`) -/

/-- The `logged` threshold branch of `trim` for one record: starts from
`valid = true`, each failing strict comparison records a message and
clears the flag.  A `NaN` derived value makes every strict comparison
false, so it records nothing and leaves the flag alone. -/
def evalLogged (o : TrimOptions) (p : HoParameter) : HoParameter × TrimFailReason :=
  let bSim := jLt p.simPct o.simPct
  let bId := jLt p.idPct o.idPct
  let bCv := jLt p.cvPct o.cvPct
  let bEv := jGt p.eValue o.eValue
  let jsRepr : JsNum → String := fun n =>
    match n with
    | .nan => "NaN"
    | .posInf => "Infinity"
    | .negInf => "-Infinity"
    | .fin f => ToString.toString f.num ++ "/" ++ ToString.toString f.den
  let reason : TrimFailReason :=
    { similarity :=
        if bSim then .fail (jsRepr p.simPct ++ ", expected higher than " ++ jsRepr (.fin o.simPct))
        else .pass,
      identity :=
        if bId then .fail (jsRepr p.idPct ++ ", expected higher than " ++ jsRepr (.fin o.idPct))
        else .pass,
      coverage :=
        if bCv then .fail (jsRepr p.cvPct ++ ", expected higher than " ++ jsRepr (.fin o.cvPct))
        else .pass,
      e_value :=
        if bEv then .fail (jsRepr p.eValue ++ ", expected lower than " ++ jsRepr (.fin o.eValue))
        else .pass }
  ({ p with valid := !(bSim || bId || bCv || bEv) }, reason)

/-- The plain (non-`logged`) threshold branch of `trim` for one record:
`valid = simPct >= t && idPct >= t && cvPct >= t && eValue <= t`.  A `NaN`
derived value makes the corresponding `>=`/`<=` comparison false, which
clears the flag. -/
def evalPlain (o : TrimOptions) (p : HoParameter) : HoParameter :=
  { p with
    valid := jGe p.simPct o.simPct && jGe p.idPct o.idPct &&
      jGe p.cvPct o.cvPct && jLe p.eValue o.eValue }

/-- `mitab_lines_of.forEach(l => l.valid = exp_methods.has(l.data.interactionDetectionMethod))` -/
def applyExpFilter (ms : List String) (lines : List MitabParameter) : List MitabParameter :=
  lines.map (fun l => { l with valid := ms.contains l.data.interactionDetectionMethod })

/-- The taxon filtering `forEach` of `trim`: a line stays valid only if it
was valid and its taxon list matches the taxon set in the configured mode
(`TAXON_EVERY`: all ids in the set; otherwise: at least one). -/
def applyTaxonFilter (mode : ℕ) (ts : List String) (lines : List MitabParameter) :
    List MitabParameter :=
  lines.map (fun l =>
    { l with
      valid :=
        if !l.valid then false
        else if mode = TAXON_EVERY then l.data.taxid.all (fun e => ts.contains e)
        else l.data.taxid.any (fun e => ts.contains e) })

/-- The JavaScript exception `trim` can raise: the `TypeError` thrown by
`mitab_lines_of.filter(...)` when `this.mitabCouples[index]` is
`undefined` (that read sits outside the `if (mitab_lines_of)` guard). -/
inductive TrimError
  | mitabUndefined
deriving DecidableEq, Repr

/-- Accumulator of the `trim` loop: the `reasons` output list, the
`to_remove` index list, and the `hashes` table of `destroy_identical`. -/
structure TrimAcc where
  reasons : List (TrimFailReason × TrimFailReason) := []
  to_remove : List ℕ := []
  hashes : List String := []
deriving Repr

/-- The threshold-evaluation block of one `trim` iteration (the
`if (logged) ... else ...` at the top of the loop body): evaluates both
records and, when `logged`, pushes one reason pair. -/
def trimThresholds (o : TrimOptions) (lo hi : HoParameter) (acc : TrimAcc) :
    HoParameter × HoParameter × TrimAcc :=
  if o.logged then
    ((evalLogged o lo).1, (evalLogged o hi).1,
      { acc with reasons := acc.reasons ++ [((evalLogged o lo).2, (evalLogged o hi).2)] })
  else (evalPlain o lo, evalPlain o hi, acc)

/-- `if (!exp_methods && this.mitabCouples[index]) ...`: the reset of the
mitab lines when no detection-method filter is given. -/
def trimResetMitab (o : TrimOptions) (i : ℕ) (mit : List (List MitabParameter)) :
    List (List MitabParameter) :=
  if o.exp_methods.isNone then
    match mit.get? i with
    | some lines => mit.set i (lines.map (fun l => { l with valid := true }))
    | none => mit
  else mit

/-- The two `forEach` filters applied to one evidence group. -/
def methodTaxonFilter (mode : ℕ) (o : TrimOptions) (lines : List MitabParameter) :
    List MitabParameter :=
  let lines1 :=
    match o.exp_methods with
    | some ms => applyExpFilter ms lines
    | none => lines
  match o.taxons with
  | some ts => applyTaxonFilter mode ts lines1
  | none => lines1

/-- `if ((exp_methods || taxons) && loHparam.valid && hiHparam.valid)`:
evidence-level filtering.  When the guard holds and
`this.mitabCouples[index]` is `undefined`, the unguarded
`mitab_lines_of.filter(...)` of line 218 throws — the `.error` case. -/
def trimMethodTaxon (mode : ℕ) (o : TrimOptions) (i : ℕ) (lo1 hi1 : HoParameter)
    (mit1 : List (List MitabParameter)) :
    Except TrimError (HoParameter × HoParameter × List (List MitabParameter)) :=
  if (o.exp_methods.isSome || o.taxons.isSome) && lo1.valid && hi1.valid then
    match mit1.get? i with
    | none => .error .mitabUndefined
    | some lines =>
      let lines2 := methodTaxonFilter mode o lines
      let anyV := decide (0 < (lines2.filter (fun e => e.valid)).length)
      .ok ({ lo1 with valid := anyV }, { hi1 with valid := anyV }, mit1.set i lines2)
  else .ok (lo1, hi1, mit1)

/-- `if (!loHparam.valid || !hiHparam.valid)`: invalidation propagation
and marking of the index for removal. -/
def trimPropagate (i : ℕ) (lo2 hi2 : HoParameter) (mit2 : List (List MitabParameter))
    (acc1 : TrimAcc) :
    HoParameter × HoParameter × List (List MitabParameter) × TrimAcc :=
  if !lo2.valid || !hi2.valid then
    let mit' :=
      match mit2.get? i with
      | some lines => mit2.set i (lines.map (fun l => { l with valid := false }))
      | none => mit2
    ({ lo2 with valid := false }, { hi2 with valid := false }, mit',
      { acc1 with to_remove := acc1.to_remove ++ [i] })
  else (lo2, hi2, mit2, acc1)

/-- `if (destroy_identical)`: the mini-hash duplicate detection. -/
def trimDedup (o : TrimOptions) (i : ℕ) (lo3 hi3 : HoParameter) (acc3 : TrimAcc) :
    TrimAcc :=
  if o.destroy_identical then
    let hash := String.join lo3.data ++ "~" ++ String.join hi3.data
    if acc3.hashes.contains hash then { acc3 with to_remove := acc3.to_remove ++ [i] }
    else { acc3 with hashes := acc3.hashes ++ [hash] }
  else acc3

/-- One iteration of the `for (const [index, parameters] of enumerate(this))`
loop of `trim`, for index `i` over the whole `mitabCouples` array: the
five blocks of the loop body in source order. -/
def trimStep (mode : ℕ) (o : TrimOptions) (i : ℕ) (lo hi : HoParameter)
    (mit : List (List MitabParameter)) (acc : TrimAcc) :
    Except TrimError (HoParameter × HoParameter × List (List MitabParameter) × TrimAcc) :=
  let s1 := trimThresholds o lo hi acc
  let mit1 := trimResetMitab o i mit
  match trimMethodTaxon mode o i s1.1 s1.2.1 mit1 with
  | .error e => .error e
  | .ok (lo2, hi2, mit2) =>
    let s4 := trimPropagate i lo2 hi2 mit2 s1.2.2
    .ok (s4.1, s4.2.1, s4.2.2.1, trimDedup o i s4.1 s4.2.1 s4.2.2.2)

/-- The whole loop of `trim`: iterates the zip of the two homology
sequences (stopping at the shorter one, untouched tails kept), threading
the `mitabCouples` array and the accumulator. -/
def trimLoop (mode : ℕ) (o : TrimOptions) :
    List HoParameter → List HoParameter → ℕ → List (List MitabParameter) → TrimAcc →
    Except TrimError
      (List HoParameter × List HoParameter × List (List MitabParameter) × TrimAcc)
  | [], his, _, mit, acc => .ok ([], his, mit, acc)
  | lo :: los, [], _, mit, acc => .ok (lo :: los, [], mit, acc)
  | lo :: los, hi :: his, i, mit, acc =>
    match trimStep mode o i lo hi mit acc with
    | .error e => .error e
    | .ok (lo', hi', mit', acc') =>
      match trimLoop mode o los his (i + 1) mit' acc' with
      | .error e => .error e
      | .ok (rlo, rhi, rmit, racc) => .ok (lo' :: rlo, hi' :: rhi, rmit, racc)

/-- `.filter((_, index) => !to_remove.includes(index))`. -/
def removeIdxs {α : Type} (l : List α) (marked : List ℕ) : List α :=
  (l.enum.filter (fun p => !marked.contains p.1)).map Prod.snd

/-- `HoParameterSet.trim(options)`. `mode` is the static
`HoParameterSet.DEFAULT_TAXON_SEARCH_MODE` (default `TAXON_EVERY`); the
result is the mutated set (with `visible = true`) together with the
returned reason list, or the thrown exception. -/
def HoParameterSet.trimWith (mode : ℕ) (o : TrimOptions) (s : HoParameterSet) :
    Except TrimError (HoParameterSet × List (TrimFailReason × TrimFailReason)) :=
  match trimLoop mode o s.lowQueryParam s.highQueryParam 0 s.mitabCouples {} with
  | .error e => .error e
  | .ok (lo, hi, mit, acc) =>
    if o.definitive then
      .ok ({ lowQueryParam := removeIdxs lo acc.to_remove,
             highQueryParam := removeIdxs hi acc.to_remove,
             mitabCouples := removeIdxs mit acc.to_remove,
             visible := true }, acc.reasons)
    else
      .ok ({ lowQueryParam := lo, highQueryParam := hi, mitabCouples := mit,
             visible := true }, acc.reasons)

/-- `trim` with the default static taxon search mode. -/
def HoParameterSet.trim (o : TrimOptions) (s : HoParameterSet) :
    Except TrimError (HoParameterSet × List (TrimFailReason × TrimFailReason)) :=
  s.trimWith TAXON_EVERY o

/-- The `to_remove` list computed by the loop of `trim` (the indices
marked invalid or duplicate). -/
def HoParameterSet.trimMarked (mode : ℕ) (o : TrimOptions) (s : HoParameterSet) :
    Except TrimError (List ℕ) :=
  match trimLoop mode o s.lowQueryParam s.highQueryParam 0 s.mitabCouples {} with
  | .error e => .error e
  | .ok (_, _, _, acc) => .ok acc.to_remove

/-! ## PSICQuic (`PSICQuic.ts`) -/

/-- Two identifier pairs denote the same unordered couple (the key
relation of the external `ReversibleKeyMap`). -/
def KeyMatch (k l : String × String) : Prop :=
  (k.1 = l.1 ∧ k.2 = l.2) ∨ (k.1 = l.2 ∧ k.2 = l.1)

instance (k l : String × String) : Decidable (KeyMatch k l) := by
  unfold KeyMatch; infer_instance

/-- One entry of the `ReversibleKeyMap`: a stored (oriented) key and the
sequence of records of that unordered couple. -/
abbrev RecEntry := (String × String) × List PSQData

/-- Couple lookup in the map: value of the first entry whose key matches
the unordered pair, if any. -/
def recFind (rs : List RecEntry) (id1 id2 : String) : Option (List PSQData) :=
  (rs.find? (fun e => decide (KeyMatch e.1 (id1, id2)))).map Prod.snd

/-- `records.set(id1, id2, v)`: replace the value of the entry for this
unordered couple (keeping its stored key orientation), appending a fresh
entry if the couple is new. -/
def recSet (rs : List RecEntry) (id1 id2 : String) (v : List PSQData) : List RecEntry :=
  match rs with
  | [] => [((id1, id2), v)]
  | e :: rest =>
    if KeyMatch e.1 (id1, id2) then (e.1, v) :: rest
    else e :: recSet rest id1 id2 v

/-- The bidirectional interaction store (class `PSICQuic`): the pair-keyed
records map and the publication registry (an insertion-ordered association
list from publication id to lowercase source). -/
structure PSICQuic where
  records : List RecEntry := []
  registredPublications : List (String × String) := []
deriving DecidableEq, Repr

namespace PSICQuic

/-- `hasCouple(id1, id2)`. -/
def hasCouple (s : PSICQuic) (id1 id2 : String) : Bool :=
  (recFind s.records id1 id2).isSome

/-- `getLines(id1, id2)`: the couple's sequence, or `[]` when absent. -/
def getLines (s : PSICQuic) (id1 id2 : String) : List PSQData :=
  (recFind s.records id1 id2).getD []

/-- `update(psq)`: fetch the couple's sequence for `psq.ids` and append
`psq` only when no stored line is `equal` to it. -/
def update (s : PSICQuic) (psq : PSQData) : PSICQuic :=
  let actual := s.getLines psq.ids.1 psq.ids.2
  if actual.all (fun line => !line.equal psq) then
    { s with records := recSet s.records psq.ids.1 psq.ids.2 (actual ++ [psq]) }
  else s

/-- `this.registredPublications[pmid]`: the registered lowercase source of
a publication id, if any. -/
def lookupPub (s : PSICQuic) (pmid : String) : Option String :=
  (s.registredPublications.find? (fun e => e.1 == pmid)).map Prod.snd

/-- `checkPsqData(psqDataObj)`: returns the boolean outcome and the store
with its (possibly grown) publication registry.  A new publication id is
registered with the record's lowercase source and accepted; a known id is
accepted iff the registered source is the same, otherwise a conflict is
reported (the `console.log` diagnostics are dropped). -/
def checkPsqData (s : PSICQuic) (psq : PSQData) : Bool × PSICQuic :=
  match s.lookupPub psq.pmid with
  | none =>
      (true,
        { s with
          registredPublications :=
            (psq.pmid, jsToLower psq.source) :: s.registredPublications })
  | some stored => if stored = jsToLower psq.source then (true, s) else (false, s)

/-- The body of the inner loop of `plus`: `if (this.checkPsqData(line)) this.update(line)`. -/
def plusStep (s : PSICQuic) (line : PSQData) : PSICQuic :=
  let (ok, s') := s.checkPsqData line
  if ok then s'.update line else s'

/-- All stored lines of a store, in map order (the iteration order of
`for (const [, value] of other.records) for (const line of value)`). -/
def allLines (s : PSICQuic) : List PSQData :=
  (s.records.map Prod.snd).flatten

/-- `plus(other)`: push every line of `other` through the publication
check, inserting (with the dedup rule of `update`) only the accepted
ones. -/
def plus (s other : PSICQuic) : PSICQuic :=
  other.allLines.foldl plusStep s

/-- A store holding exactly one record under its own couple (the smallest
store shape `plus` can consume). -/
def single (r : PSQData) : PSICQuic :=
  { records := [(r.ids, [r])] }

/-- The record `r` has been absorbed by the store: its publication id is
registered, and — whenever the registered source is its own — the record
itself is stored under its couple.  After one `plusStep` on `r` this
holds, and it makes a later `plusStep` on `r` a no-op. -/
def Absorbed (s : PSICQuic) (r : PSQData) : Prop :=
  ∃ src, s.lookupPub r.pmid = some src ∧
    (src = jsToLower r.source → r ∈ s.getLines r.ids.1 r.ids.2)

/-- Well-formedness of a store as built by `update`/`plus`: every stored
line is found by a couple lookup on its own `ids`.  (It rules out stores
whose `records` map was mutated directly against the keying discipline.) -/
def wf (s : PSICQuic) : Bool :=
  s.records.all (fun e => e.2.all (fun l => (s.getLines l.ids.1 l.ids.2).contains l))

end PSICQuic

/-! ## Decidability of `Except` results -/

instance {ε α : Type} [DecidableEq ε] [DecidableEq α] : DecidableEq (Except ε α)
  | .error a, .error b =>
    if h : a = b then .isTrue (by rw [h]) else .isFalse (by intro hc; cases hc; exact h rfl)
  | .error _, .ok _ => .isFalse (by intro hc; cases hc)
  | .ok _, .error _ => .isFalse (by intro hc; cases hc)
  | .ok a, .ok b =>
    if h : a = b then .isTrue (by rw [h]) else .isFalse (by intro hc; cases hc; exact h rfl)

/-! ## Concrete sample data

The scenario of the spec: a homology row whose alignment spans residues 1
to 50 of a query of length 50 (so `length = 50` and `cvPct = 100`), with
40 similar residues (`simPct = 80`), 45 identical ones (`idPct = 90`) and
e-value 0. -/

/-- A fully passing homology row. -/
def loRow50 : HoParameter :=
  { data := ["T", "50", "1", "50", "", "", "", "40", "45", "0"] }

/-- A one-row `HoParameterSet` with an (empty) same-index evidence
group. -/
def sampleSet : HoParameterSet :=
  { lowQueryParam := [loRow50], highQueryParam := [loRow50], mitabCouples := [[]] }

/-- The same row with a non-numeric similarity score `data[7] = "x"`:
`simPct` is `NaN`, the other three derived values are finite and pass the
default thresholds. -/
def loNanSim : HoParameter :=
  { data := ["T", "50", "1", "50", "", "", "", "x", "45", "0"] }

/-- A one-row set whose low record has a `NaN` similarity. -/
def sNanSim : HoParameterSet :=
  { lowQueryParam := [loNanSim], highQueryParam := [loRow50], mitabCouples := [[]] }

/-- The passing row with a non-numeric e-value `data[9] = "x"`: `eValue`
is `NaN`, the other three derived values are finite and passing. -/
def loNanEv : HoParameter :=
  { data := ["T", "50", "1", "50", "", "", "", "40", "45", "x"] }

/-- A one-row set whose low record has a `NaN` e-value. -/
def sNanEv : HoParameterSet :=
  { lowQueryParam := [loNanEv], highQueryParam := [loRow50], mitabCouples := [[]] }

/-- A serialized snapshot holding the passing row on both sides. -/
def sampleFromObj : HoParameterSet.FromObj :=
  { lowQueryParam := [loRow50], highQueryParam := [loRow50], visible := true }

/-- An evidence record for the pair (A, B) from source `SourceB` of
publication `P1`. -/
def recAB : PSQData :=
  { ids := ("A", "B"), pmid := "P1", source := "SourceB",
    interactionDetectionMethod := "m2", taxid := ["9606"] }

/-- An evidence record for the pair (A, B) from source `SourceA` of
publication `P1`. -/
def recABsameSource : PSQData :=
  { ids := ("A", "B"), pmid := "P1", source := "SourceA",
    interactionDetectionMethod := "m1", taxid := ["9606"] }

/-- A store already holding publication `P1` registered from source
`sourcea` (via an earlier record for the pair (C, D)). -/
def storeCD : PSICQuic :=
  { records := [(("C", "D"),
      [{ ids := ("C", "D"), pmid := "P1", source := "SourceA",
         interactionDetectionMethod := "m0", taxid := [] }])],
    registredPublications := [("P1", "sourcea")] }

/-! ## Lemmas: the pair-indexed records map -/

theorem KeyMatch.refl (k : String × String) : KeyMatch k k :=
  Or.inl ⟨rfl, rfl⟩

theorem KeyMatch.symm {k l : String × String} (h : KeyMatch k l) : KeyMatch l k := by
  rcases h with ⟨h1, h2⟩ | ⟨h1, h2⟩
  · exact Or.inl ⟨h1.symm, h2.symm⟩
  · exact Or.inr ⟨h2.symm, h1.symm⟩

theorem KeyMatch.trans {a b c : String × String} (h1 : KeyMatch a b) (h2 : KeyMatch b c) :
    KeyMatch a c := by
  rcases h1 with ⟨x1, x2⟩ | ⟨x1, x2⟩ <;> rcases h2 with ⟨y1, y2⟩ | ⟨y1, y2⟩
  · exact Or.inl ⟨x1.trans y1, x2.trans y2⟩
  · exact Or.inr ⟨x1.trans y1, x2.trans y2⟩
  · exact Or.inr ⟨x1.trans y2, x2.trans y1⟩
  · exact Or.inl ⟨x1.trans y2, x2.trans y1⟩

theorem recFind_nil (q1 q2 : String) : recFind [] q1 q2 = none := rfl

theorem recFind_cons (e : RecEntry) (rest : List RecEntry) (q1 q2 : String) :
    recFind (e :: rest) q1 q2 =
      if KeyMatch e.1 (q1, q2) then some e.2 else recFind rest q1 q2 := by
  by_cases h : KeyMatch e.1 (q1, q2) <;> simp [recFind, List.find?, h]

/-- A couple lookup only depends on the unordered pair. -/
theorem recFind_congr (rs : List RecEntry) {q1 q2 p1 p2 : String}
    (h : KeyMatch (q1, q2) (p1, p2)) :
    recFind rs q1 q2 = recFind rs p1 p2 := by
  induction rs with
  | nil => rfl
  | cons e rest ih =>
    rw [recFind_cons, recFind_cons, ih]
    by_cases he : KeyMatch e.1 (q1, q2)
    · rw [if_pos he, if_pos (he.trans h)]
    · rw [if_neg he, if_neg (fun hc => he (hc.trans h.symm))]

/-- Lookup after `records.set`: the matching couple reads the new value,
every other couple is untouched. -/
theorem recFind_recSet (rs : List RecEntry) (id1 id2 q1 q2 : String) (v : List PSQData) :
    recFind (recSet rs id1 id2 v) q1 q2 =
      if KeyMatch (q1, q2) (id1, id2) then some v else recFind rs q1 q2 := by
  induction rs with
  | nil =>
    by_cases h : KeyMatch (q1, q2) (id1, id2)
    · rw [recSet, recFind_cons, if_pos h.symm, if_pos h]
    · rw [recSet, recFind_cons, if_neg (fun hc => h hc.symm), if_neg h, recFind_nil]
  | cons e rest ih =>
    by_cases he : KeyMatch e.1 (id1, id2)
    · rw [recSet, if_pos he, recFind_cons, recFind_cons]
      by_cases hq : KeyMatch (q1, q2) (id1, id2)
      · rw [if_pos (he.trans hq.symm), if_pos hq]
      · have h1 : ¬ KeyMatch e.1 (q1, q2) := fun hc => hq (hc.symm.trans he)
        rw [if_neg h1, if_neg h1, if_neg hq]
    · rw [recSet, if_neg he, recFind_cons, recFind_cons]
      by_cases h1 : KeyMatch e.1 (q1, q2)
      · have hq : ¬ KeyMatch (q1, q2) (id1, id2) := fun hc => he (h1.trans hc)
        rw [if_pos h1, if_pos h1, if_neg hq]
      · rw [if_neg h1, if_neg h1, ih]

namespace PSICQuic

/-- `getLines` is a pure read of `records`. -/
theorem getLines_eq (s : PSICQuic) (a b : String) :
    s.getLines a b = (recFind s.records a b).getD [] := rfl

/-- `getLines` only depends on the unordered pair. -/
theorem getLines_congr (s : PSICQuic) {q1 q2 p1 p2 : String}
    (h : KeyMatch (q1, q2) (p1, p2)) :
    s.getLines q1 q2 = s.getLines p1 p2 := by
  simp only [getLines, recFind_congr s.records h]

/-- The dedup condition of `update` holds iff the record is not already
stored (its `equal` predicate being content equality). -/
theorem update_cond_iff (actual : List PSQData) (r : PSQData) :
    (actual.all fun line => !line.equal r) = true ↔ r ∉ actual := by
  simp only [List.all_eq_true, PSQData.equal, Bool.not_eq_true', decide_eq_false_iff_not]
  constructor
  · intro h hc
    exact (h r hc) rfl
  · intro h l hl hc
    exact h (hc ▸ hl)

/-- `update` on a record already stored under its couple is the
identity. -/
theorem update_of_mem {s : PSICQuic} {r : PSQData}
    (h : r ∈ s.getLines r.ids.1 r.ids.2) : s.update r = s := by
  have hc : (((s.getLines r.ids.1 r.ids.2)).all fun line => !line.equal r) = false := by
    rcases hb : ((s.getLines r.ids.1 r.ids.2).all fun line => !line.equal r) with _ | _
    · rfl
    · exact absurd h (by exact ((update_cond_iff _ _).1 hb))
  simp only [update, hc, Bool.false_eq_true, if_false]

/-- `update` on a record not yet stored under its couple appends it at the
end of that couple's sequence. -/
theorem getLines_update_self {s : PSICQuic} {r : PSQData}
    (h : r ∉ s.getLines r.ids.1 r.ids.2) :
    (s.update r).getLines r.ids.1 r.ids.2 = s.getLines r.ids.1 r.ids.2 ++ [r] := by
  simp only [update, (update_cond_iff _ _).2 h, if_true]
  simp only [getLines, recFind_recSet, if_pos (KeyMatch.refl _), Option.getD_some]

/-- `update` never removes a stored line. -/
theorem getLines_update_mono {s : PSICQuic} {r x : PSQData} {a b : String}
    (h : x ∈ s.getLines a b) : x ∈ (s.update r).getLines a b := by
  rcases hb : ((s.getLines r.ids.1 r.ids.2).all fun line => !line.equal r) with _ | _
  · simp only [update, hb, Bool.false_eq_true, if_false]
    exact h
  · simp only [update, hb, if_true]
    simp only [getLines, recFind_recSet]
    by_cases hk : KeyMatch (a, b) (r.ids.1, r.ids.2)
    · rw [if_pos hk, Option.getD_some]
      have heq : s.getLines a b = s.getLines r.ids.1 r.ids.2 := getLines_congr s hk
      refine List.mem_append_left _ ?_
      show x ∈ s.getLines r.ids.1 r.ids.2
      rw [← heq]
      exact h
    · rw [if_neg hk]
      exact h

/-- `update` leaves the publication registry alone. -/
theorem update_registry (s : PSICQuic) (r : PSQData) :
    (s.update r).registredPublications = s.registredPublications := by
  rcases hb : ((s.getLines r.ids.1 r.ids.2).all fun line => !line.equal r) with _ | _ <;>
    simp only [update, hb, Bool.false_eq_true, if_false, if_true]

/-- `checkPsqData` leaves the records map alone. -/
theorem checkPsqData_records (s : PSICQuic) (r : PSQData) :
    ((s.checkPsqData r).2).records = s.records := by
  unfold checkPsqData
  rcases hf : s.lookupPub r.pmid with _ | stored
  · simp only [hf]
  · simp only [hf]
    by_cases h : stored = jsToLower r.source <;> simp [h]

end PSICQuic

/-! ## Lemmas: `plus` and the publication registry -/

namespace PSICQuic

/-- `plusStep` written with projections instead of the destructuring
`let`. -/
theorem plusStep_eq (s : PSICQuic) (r : PSQData) :
    plusStep s r =
      if (s.checkPsqData r).1 then ((s.checkPsqData r).2).update r
      else (s.checkPsqData r).2 := rfl

/-- `update` does not change registry lookups. -/
theorem lookupPub_update (s : PSICQuic) (r : PSQData) (p : String) :
    (s.update r).lookupPub p = s.lookupPub p := by
  simp only [lookupPub, update_registry]

/-- `checkPsqData` does not change `getLines`. -/
theorem getLines_checkPsqData (s : PSICQuic) (r : PSQData) (a b : String) :
    ((s.checkPsqData r).2).getLines a b = s.getLines a b := by
  simp only [getLines_eq, checkPsqData_records]

/-- `checkPsqData` never drops a registry entry. -/
theorem lookupPub_checkPsqData_mono (s : PSICQuic) (r : PSQData) {p v : String}
    (h : s.lookupPub p = some v) : ((s.checkPsqData r).2).lookupPub p = some v := by
  unfold checkPsqData
  rcases hf : s.lookupPub r.pmid with _ | stored
  · simp only [hf]
    have hne : r.pmid ≠ p := by
      intro hc
      rw [hc, h] at hf
      exact Option.noConfusion hf
    simp only [lookupPub, List.find?]
    have : ((r.pmid, jsToLower r.source).1 == p) = false := by
      simpa using hne
    rw [this]
    exact h
  · simp only [hf]
    by_cases hs : stored = jsToLower r.source <;> simp [hs, h]

/-- A record appears under its own couple after `update` on it. -/
theorem mem_update_self (s : PSICQuic) (r : PSQData) :
    r ∈ (s.update r).getLines r.ids.1 r.ids.2 := by
  by_cases h : r ∈ s.getLines r.ids.1 r.ids.2
  · rw [update_of_mem h]
    exact h
  · rw [getLines_update_self h]
    exact List.mem_append_right _ (List.mem_singleton.2 rfl)

/-- The three outcomes of `checkPsqData`, as equations. -/
theorem checkPsqData_of_new {s : PSICQuic} {r : PSQData}
    (h : s.lookupPub r.pmid = none) :
    s.checkPsqData r =
      (true,
        { s with
          registredPublications :=
            (r.pmid, jsToLower r.source) :: s.registredPublications }) := by
  unfold checkPsqData
  rw [h]

/-- `checkPsqData` on a publication registered from the same source. -/
theorem checkPsqData_of_same {s : PSICQuic} {r : PSQData}
    (h : s.lookupPub r.pmid = some (jsToLower r.source)) :
    s.checkPsqData r = (true, s) := by
  unfold checkPsqData
  rw [h]
  simp

/-- `checkPsqData` on a publication registered from another source. -/
theorem checkPsqData_of_conflict {s : PSICQuic} {r : PSQData} {v : String}
    (h : s.lookupPub r.pmid = some v) (hv : v ≠ jsToLower r.source) :
    s.checkPsqData r = (false, s) := by
  unfold checkPsqData
  rw [h]
  simp [hv]

/-- After one `plusStep` on `r`, the store has absorbed `r`. -/
theorem plusStep_absorbs (s : PSICQuic) (r : PSQData) : Absorbed (plusStep s r) r := by
  rw [plusStep_eq]
  rcases hf : s.lookupPub r.pmid with _ | stored
  · rw [checkPsqData_of_new hf]
    simp only [if_true]
    refine ⟨jsToLower r.source, ?_, ?_⟩
    · rw [lookupPub_update]
      simp [lookupPub, List.find?]
    · intro _
      exact mem_update_self _ r
  · by_cases hs : stored = jsToLower r.source
    · rw [hs] at hf
      rw [checkPsqData_of_same hf]
      simp only [if_true]
      exact ⟨jsToLower r.source, by rw [lookupPub_update]; exact hf,
        fun _ => mem_update_self s r⟩
    · rw [checkPsqData_of_conflict hf hs]
      simp only [Bool.false_eq_true, if_false]
      exact ⟨stored, hf, fun hc => absurd hc hs⟩

/-- `plusStep` preserves absorption of any record. -/
theorem plusStep_mono_absorbed {s : PSICQuic} {x : PSQData} (r : PSQData)
    (h : Absorbed s x) : Absorbed (plusStep s r) x := by
  obtain ⟨src, hl, hm⟩ := h
  rw [plusStep_eq]
  split
  · exact ⟨src, by rw [lookupPub_update]; exact lookupPub_checkPsqData_mono s r hl,
      fun hs => getLines_update_mono (by rw [getLines_checkPsqData]; exact hm hs)⟩
  · exact ⟨src, lookupPub_checkPsqData_mono s r hl,
      fun hs => by rw [getLines_checkPsqData]; exact hm hs⟩

/-- On an absorbed record, `plusStep` is the identity. -/
theorem plusStep_of_absorbed {s : PSICQuic} {r : PSQData} (h : Absorbed s r) :
    plusStep s r = s := by
  obtain ⟨src, hl, hm⟩ := h
  rw [plusStep_eq]
  by_cases hs : src = jsToLower r.source
  · rw [hs] at hl
    rw [checkPsqData_of_same hl]
    simp only [if_true]
    exact update_of_mem (hm hs)
  · rw [checkPsqData_of_conflict hl hs]
    simp only [Bool.false_eq_true, if_false]

/-- Folding `plusStep` preserves absorption. -/
theorem foldl_plusStep_mono_absorbed (L : List PSQData) {s : PSICQuic} {x : PSQData}
    (h : Absorbed s x) : Absorbed (L.foldl plusStep s) x := by
  induction L generalizing s with
  | nil => exact h
  | cons a rest ih =>
    simp only [List.foldl_cons]
    exact ih (plusStep_mono_absorbed a h)

/-- After folding `plusStep` over a list, every list element is
absorbed. -/
theorem foldl_plusStep_absorbs (L : List PSQData) (s : PSICQuic) :
    ∀ x ∈ L, Absorbed (L.foldl plusStep s) x := by
  induction L generalizing s with
  | nil => intro x hx; cases hx
  | cons a rest ih =>
    intro x hx
    rcases List.mem_cons.1 hx with rfl | hx'
    · simp only [List.foldl_cons]
      exact foldl_plusStep_mono_absorbed rest (plusStep_absorbs s x)
    · simp only [List.foldl_cons]
      exact ih (plusStep s a) x hx'

/-- Folding `plusStep` over fully absorbed records is the identity. -/
theorem foldl_plusStep_of_absorbed {L : List PSQData} {s : PSICQuic}
    (h : ∀ x ∈ L, Absorbed s x) : L.foldl plusStep s = s := by
  induction L with
  | nil => rfl
  | cons a rest ih =>
    have ha : plusStep s a = s := plusStep_of_absorbed (h a (List.mem_cons_self a rest))
    simp only [List.foldl_cons, ha]
    exact ih (fun x hx => h x (List.mem_cons_of_mem a hx))

/-- In a well-formed store every stored line is found under its own
couple. -/
theorem mem_getLines_of_wf {S : PSICQuic} (h : S.wf = true) :
    ∀ x ∈ S.allLines, x ∈ S.getLines x.ids.1 x.ids.2 := by
  intro x hx
  simp only [allLines, List.mem_flatten, List.mem_map] at hx
  obtain ⟨lines, ⟨e, he, rfl⟩, hxl⟩ := hx
  unfold wf at h
  simp only [List.all_eq_true] at h
  have := h e he x hxl
  simpa [List.contains_iff_exists_mem_beq, beq_iff_eq] using this

/-- `plus` keeps the records of the target store intact when every merged
line is already stored under its couple. -/
theorem foldl_plusStep_records {L : List PSQData} {s0 : PSICQuic}
    (hmem : ∀ x ∈ L, x ∈ s0.getLines x.ids.1 x.ids.2) :
    ∀ s, s.records = s0.records → (L.foldl plusStep s).records = s0.records := by
  induction L with
  | nil => exact fun s hs => hs
  | cons a rest ih =>
    intro s hs
    simp only [List.foldl_cons]
    refine ih (fun x hx => hmem x (List.mem_cons_of_mem a hx)) _ ?_
    rw [plusStep_eq]
    have hga : ((s.checkPsqData a).2).getLines a.ids.1 a.ids.2 =
        s0.getLines a.ids.1 a.ids.2 := by
      rw [getLines_checkPsqData]
      simp only [getLines_eq, hs]
    split
    · rw [update_of_mem (by rw [hga]; exact hmem a (List.mem_cons_self a rest))]
      rw [checkPsqData_records, hs]
    · rw [checkPsqData_records, hs]

end PSICQuic

/-! ## Claims C5, C6, C7 -/

/-- C5 (counterexample): publication conflicts are NOT advisory-only in
`plus`.  `storeCD` has publication `P1` registered from source `sourcea`;
the other store holds `recAB` (also `P1`, but source `SourceB`) for the
pair (A, B), which is not content-equal to any record stored under that
pair (the pair holds nothing at all) — yet `plus` inserts nothing and the
records map is left unchanged. -/
theorem c5_conflict_blocks_insertion :
    recAB ∈ (PSICQuic.single recAB).getLines "A" "B" ∧
    storeCD.getLines "A" "B" = [] ∧
    (storeCD.checkPsqData recAB).1 = false ∧
    (storeCD.plus (PSICQuic.single recAB)).records = storeCD.records := by
  decide

/-- C5 (amended): merging through `plus` gates every record on
`checkPsqData`: a record whose publication check fails (same publication
id registered from a different source) is skipped and the records map is
untouched, while an accepted record not yet stored under its couple is
appended to that couple's sequence. -/
theorem c5_plus_gated_on_publication_check (T : PSICQuic) (r : PSQData) :
    ((T.checkPsqData r).1 = false →
      (T.plus (PSICQuic.single r)).records = T.records) ∧
    ((T.checkPsqData r).1 = true → r ∉ T.getLines r.ids.1 r.ids.2 →
      (T.plus (PSICQuic.single r)).getLines r.ids.1 r.ids.2 =
        T.getLines r.ids.1 r.ids.2 ++ [r]) := by
  have hp : T.plus (PSICQuic.single r) = PSICQuic.plusStep T r := rfl
  constructor
  · intro h
    rw [hp, PSICQuic.plusStep_eq, h]
    simp only [Bool.false_eq_true, if_false]
    exact PSICQuic.checkPsqData_records T r
  · intro h hmem
    rw [hp, PSICQuic.plusStep_eq, h]
    simp only [if_true]
    rw [PSICQuic.getLines_update_self
      (by rw [PSICQuic.getLines_checkPsqData]; exact hmem)]
    rw [PSICQuic.getLines_checkPsqData]

/-- C5: witness for the amended theorem at concrete stores: the conflicted
record is dropped, the accepted same-source record is appended. -/
theorem c5_plus_gated_witness :
    (storeCD.plus (PSICQuic.single recAB)).records = storeCD.records ∧
    (storeCD.plus (PSICQuic.single recABsameSource)).getLines
        recABsameSource.ids.1 recABsameSource.ids.2 =
      storeCD.getLines recABsameSource.ids.1 recABsameSource.ids.2 ++
        [recABsameSource] :=
  ⟨(c5_plus_gated_on_publication_check storeCD recAB).1 (by decide),
   (c5_plus_gated_on_publication_check storeCD recABsameSource).2 (by decide) (by decide)⟩

/-- C6: merge is idempotent.  Self-merge leaves the records of a
well-formed store unchanged (its publication registry may grow, the
content does not), and merging the same store into any target twice gives
exactly the store obtained by merging it once. -/
theorem c6_merge_idempotent :
    (∀ S : PSICQuic, S.wf = true → (S.plus S).records = S.records) ∧
    (∀ T S : PSICQuic, (T.plus S).plus S = T.plus S) := by
  constructor
  · intro S hwf
    exact PSICQuic.foldl_plusStep_records
      (PSICQuic.mem_getLines_of_wf hwf) S rfl
  · intro T S
    exact PSICQuic.foldl_plusStep_of_absorbed
      (PSICQuic.foldl_plusStep_absorbs S.allLines T)

/-- C6: witness at concrete stores. -/
theorem c6_merge_idempotent_witness :
    (storeCD.plus storeCD).records = storeCD.records ∧
    ((storeCD.plus (PSICQuic.single recABsameSource)).plus
        (PSICQuic.single recABsameSource) =
      storeCD.plus (PSICQuic.single recABsameSource)) :=
  ⟨c6_merge_idempotent.1 storeCD (by decide),
   c6_merge_idempotent.2 storeCD (PSICQuic.single recABsameSource)⟩

/-- C7: `update` (the underlying operation of `add`) deduplicates by the
record's equality predicate — if some stored line of the record's couple
is `equal` to it, the couple's sequence keeps its length (the store is in
fact unchanged); otherwise the record is appended at the end, preserving
insertion order. -/
theorem c7_update_dedup_or_append (s : PSICQuic) (r : PSQData) :
    ((∃ l ∈ s.getLines r.ids.1 r.ids.2, l.equal r = true) →
      ((s.update r).getLines r.ids.1 r.ids.2).length =
        (s.getLines r.ids.1 r.ids.2).length) ∧
    ((∀ l ∈ s.getLines r.ids.1 r.ids.2, l.equal r = false) →
      (s.update r).getLines r.ids.1 r.ids.2 =
        s.getLines r.ids.1 r.ids.2 ++ [r]) := by
  constructor
  · intro h
    obtain ⟨l, hl, he⟩ := h
    have : l = r := by simpa [PSQData.equal] using he
    rw [PSICQuic.update_of_mem (this ▸ hl)]
  · intro h
    refine PSICQuic.getLines_update_self (fun hc => ?_)
    have := h r hc
    simp [PSQData.equal] at this

/-- C7: witness — adding the already-present record keeps the length,
adding a fresh record appends it. -/
theorem c7_update_dedup_witness :
    (((PSICQuic.single recAB).update recAB).getLines recAB.ids.1 recAB.ids.2).length =
      (((PSICQuic.single recAB)).getLines recAB.ids.1 recAB.ids.2).length ∧
    (storeCD.update recAB).getLines recAB.ids.1 recAB.ids.2 =
      storeCD.getLines recAB.ids.1 recAB.ids.2 ++ [recAB] :=
  ⟨(c7_update_dedup_or_append (PSICQuic.single recAB) recAB).1 (by decide),
   (c7_update_dedup_or_append storeCD recAB).2 (by decide)⟩

/-! ## Claim C8: serialization -/

/-- The filter-with-side-effect of `toString` computes exactly: the valid
low rows, and one serialized evidence group per valid low index that has a
same-index group. -/
theorem serializeLow_eq (mit : List (List MitabParameter)) (l : List HoParameter) :
    ∀ i, serializeLow mit l i =
      (l.filter (fun e => e.valid),
       (l.enumFrom i).filterMap (fun p =>
         if p.2.valid then
           (mit.get? p.1).map
             (fun grp => (grp.filter (fun m => m.valid)).map (fun m => m.data))
         else none)) := by
  induction l with
  | nil => intro i; rfl
  | cons e rest ih =>
    intro i
    rcases hg : mit[i]? with _ | grp <;> by_cases hv : e.valid <;>
      simp [serializeLow, ih (i + 1), hv, List.get?_eq_getElem?, hg, List.enumFrom,
        List.filter_cons, List.filterMap_cons]

/-- C8 (amended): the snapshot produced by `toString` holds exactly the
currently-valid low and high rows and, for each retained low index with a
same-index evidence group, the valid entries of that group — and nothing
else: in particular it has no `visible` field. -/
theorem c8_serialize_matches_spec (s : HoParameterSet) :
    s.toString = s.snapshotSpec := by
  unfold HoParameterSet.toString HoParameterSet.snapshotSpec
  rw [serializeLow_eq s.mitabCouples s.lowQueryParam 0]
  rfl

/-- C8 (counterexample): the serialized snapshot does not contain the
`visible` flag — two sets differing only in `visible` serialize
identically, refuting the claimed `{ low, high, evidenceGroups, visible }`
shape. -/
theorem c8_visible_not_serialized :
    HoParameterSet.toString { sampleSet with visible := false } =
      HoParameterSet.toString sampleSet ∧
    ({ sampleSet with visible := false } : HoParameterSet).visible ≠ sampleSet.visible := by
  decide

/-! ## Lemmas: the trim stages -/

theorem trimThresholds_to_remove (o : TrimOptions) (lo hi : HoParameter) (acc : TrimAcc) :
    ((trimThresholds o lo hi acc).2.2).to_remove = acc.to_remove := by
  unfold trimThresholds
  split <;> rfl

theorem trimThresholds_hashes (o : TrimOptions) (lo hi : HoParameter) (acc : TrimAcc) :
    ((trimThresholds o lo hi acc).2.2).hashes = acc.hashes := by
  unfold trimThresholds
  split <;> rfl

theorem trimThresholds_reasons_length (o : TrimOptions) (lo hi : HoParameter) (acc : TrimAcc) :
    ((trimThresholds o lo hi acc).2.2).reasons.length =
      acc.reasons.length + (if o.logged then 1 else 0) := by
  unfold trimThresholds
  split <;> simp_all

theorem trimResetMitab_length (o : TrimOptions) (i : ℕ) (mit : List (List MitabParameter)) :
    (trimResetMitab o i mit).length = mit.length := by
  unfold trimResetMitab
  split
  · split <;> simp [List.length_set]
  · rfl

theorem trimMethodTaxon_ok_length {mode : ℕ} {o : TrimOptions} {i : ℕ}
    {lo1 hi1 : HoParameter} {mit1 : List (List MitabParameter)}
    {lo2 hi2 : HoParameter} {mit2 : List (List MitabParameter)}
    (h : trimMethodTaxon mode o i lo1 hi1 mit1 = .ok (lo2, hi2, mit2)) :
    mit2.length = mit1.length := by
  unfold trimMethodTaxon at h
  split at h
  · split at h
    · exact absurd h (by simp)
    · simp only [Except.ok.injEq, Prod.mk.injEq] at h
      obtain ⟨-, -, h3⟩ := h
      rw [← h3]
      simp [List.length_set]
  · simp only [Except.ok.injEq, Prod.mk.injEq] at h
    obtain ⟨-, -, h3⟩ := h
    rw [← h3]

theorem trimMethodTaxon_isOk {mode : ℕ} {o : TrimOptions} {i : ℕ}
    {lo1 hi1 : HoParameter} {mit1 : List (List MitabParameter)}
    (h : i < mit1.length) :
    ∃ out, trimMethodTaxon mode o i lo1 hi1 mit1 = .ok out := by
  unfold trimMethodTaxon
  split
  · rcases hg : mit1.get? i with _ | lines
    · rw [List.get?_eq_none] at hg
      omega
    · exact ⟨_, rfl⟩
  · exact ⟨_, rfl⟩

theorem trimMethodTaxon_no_filters {mode : ℕ} {o : TrimOptions} {i : ℕ}
    {lo1 hi1 : HoParameter} {mit1 : List (List MitabParameter)}
    (h1 : o.exp_methods = none) (h2 : o.taxons = none) :
    trimMethodTaxon mode o i lo1 hi1 mit1 = .ok (lo1, hi1, mit1) := by
  unfold trimMethodTaxon
  simp [h1, h2]

theorem trimPropagate_mit_length (i : ℕ) (lo2 hi2 : HoParameter)
    (mit2 : List (List MitabParameter)) (acc1 : TrimAcc) :
    ((trimPropagate i lo2 hi2 mit2 acc1).2.2.1).length = mit2.length := by
  unfold trimPropagate
  split
  · split <;> simp [List.length_set]
  · rfl

theorem trimPropagate_reasons (i : ℕ) (lo2 hi2 : HoParameter)
    (mit2 : List (List MitabParameter)) (acc1 : TrimAcc) :
    ((trimPropagate i lo2 hi2 mit2 acc1).2.2.2).reasons = acc1.reasons := by
  unfold trimPropagate
  split
  · rfl
  · rfl

theorem trimDedup_reasons (o : TrimOptions) (i : ℕ) (lo3 hi3 : HoParameter)
    (acc3 : TrimAcc) :
    (trimDedup o i lo3 hi3 acc3).reasons = acc3.reasons := by
  simp only [trimDedup]
  split
  · split <;> rfl
  · rfl

/-- None of the loop stages reads `definitive`. -/
theorem trimStep_definitive_irrel (mode : ℕ) (o : TrimOptions) (b : Bool) (i : ℕ)
    (lo hi : HoParameter) (mit : List (List MitabParameter)) (acc : TrimAcc) :
    trimStep mode { o with definitive := b } i lo hi mit acc =
      trimStep mode o i lo hi mit acc := rfl

theorem trimStep_ok_mit_length {mode : ℕ} {o : TrimOptions} {i : ℕ}
    {lo hi : HoParameter} {mit : List (List MitabParameter)} {acc : TrimAcc}
    {lo' hi' : HoParameter} {mit' : List (List MitabParameter)} {acc' : TrimAcc}
    (h : trimStep mode o i lo hi mit acc = .ok (lo', hi', mit', acc')) :
    mit'.length = mit.length := by
  simp only [trimStep] at h
  rcases hmt : trimMethodTaxon mode o i (trimThresholds o lo hi acc).1
      (trimThresholds o lo hi acc).2.1 (trimResetMitab o i mit) with e | ⟨lo2, hi2, mit2⟩
  · rw [hmt] at h
    exact absurd h (by simp)
  · rw [hmt] at h
    simp only [Except.ok.injEq, Prod.mk.injEq] at h
    obtain ⟨-, -, h3, -⟩ := h
    rw [← h3, trimPropagate_mit_length, trimMethodTaxon_ok_length hmt,
      trimResetMitab_length]

theorem trimStep_isOk {mode : ℕ} {o : TrimOptions} {i : ℕ}
    {lo hi : HoParameter} {mit : List (List MitabParameter)} {acc : TrimAcc}
    (h : i < mit.length) :
    ∃ out, trimStep mode o i lo hi mit acc = .ok out := by
  simp only [trimStep]
  obtain ⟨out, hout⟩ := @trimMethodTaxon_isOk mode o i (trimThresholds o lo hi acc).1
    (trimThresholds o lo hi acc).2.1 (trimResetMitab o i mit)
    (by rw [trimResetMitab_length]; exact h)
  rw [hout]
  rcases out with ⟨lo2, hi2, mit2⟩
  exact ⟨_, rfl⟩

theorem trimStep_reasons_length {mode : ℕ} {o : TrimOptions} {i : ℕ}
    {lo hi : HoParameter} {mit : List (List MitabParameter)} {acc : TrimAcc}
    {lo' hi' : HoParameter} {mit' : List (List MitabParameter)} {acc' : TrimAcc}
    (h : trimStep mode o i lo hi mit acc = .ok (lo', hi', mit', acc')) :
    acc'.reasons.length = acc.reasons.length + (if o.logged then 1 else 0) := by
  simp only [trimStep] at h
  rcases hmt : trimMethodTaxon mode o i (trimThresholds o lo hi acc).1
      (trimThresholds o lo hi acc).2.1 (trimResetMitab o i mit) with e | ⟨lo2, hi2, mit2⟩
  · rw [hmt] at h
    exact absurd h (by simp)
  · rw [hmt] at h
    simp only [Except.ok.injEq, Prod.mk.injEq] at h
    obtain ⟨-, -, -, h4⟩ := h
    rw [← h4, trimDedup_reasons, trimPropagate_reasons, trimThresholds_reasons_length]

/-! ## Lemmas: the trim loop -/

theorem trimLoop_ok_lengths {mode : ℕ} {o : TrimOptions} :
    ∀ {los his : List HoParameter} {i : ℕ} {mit : List (List MitabParameter)}
      {acc : TrimAcc} {rlo rhi : List HoParameter}
      {rmit : List (List MitabParameter)} {racc : TrimAcc},
      trimLoop mode o los his i mit acc = .ok (rlo, rhi, rmit, racc) →
      rlo.length = los.length ∧ rhi.length = his.length ∧ rmit.length = mit.length := by
  intro los
  induction los with
  | nil =>
    intro his i mit acc rlo rhi rmit racc h
    simp only [trimLoop, Except.ok.injEq, Prod.mk.injEq] at h
    obtain ⟨h1, h2, h3, -⟩ := h
    simp [← h1, ← h2, ← h3]
  | cons lo los ih =>
    intro his i mit acc rlo rhi rmit racc h
    cases his with
    | nil =>
      simp only [trimLoop, Except.ok.injEq, Prod.mk.injEq] at h
      obtain ⟨h1, h2, h3, -⟩ := h
      simp [← h1, ← h2, ← h3]
    | cons hi his =>
      simp only [trimLoop] at h
      rcases hstep : trimStep mode o i lo hi mit acc with e | ⟨lo', hi', mit', acc'⟩
      · simp only [hstep] at h
        exact absurd h (by simp)
      · simp only [hstep] at h
        rcases hrec : trimLoop mode o los his (i + 1) mit' acc' with e |
          ⟨rlo', rhi', rmit', racc'⟩
        · simp only [hrec] at h
          exact absurd h (by simp)
        · simp only [hrec, Except.ok.injEq, Prod.mk.injEq] at h
          obtain ⟨h1, h2, h3, -⟩ := h
          obtain ⟨l1, l2, l3⟩ := ih hrec
          constructor
          · rw [← h1]
            simp [l1]
          constructor
          · rw [← h2]
            simp [l2]
          · rw [← h3, l3, trimStep_ok_mit_length hstep]

theorem trimLoop_isOk {mode : ℕ} {o : TrimOptions} :
    ∀ {los his : List HoParameter} {i : ℕ} {mit : List (List MitabParameter)}
      {acc : TrimAcc},
      i + min los.length his.length ≤ mit.length →
      ∃ out, trimLoop mode o los his i mit acc = .ok out := by
  intro los
  induction los with
  | nil =>
    intro his i mit acc _
    exact ⟨_, rfl⟩
  | cons lo los ih =>
    intro his i mit acc hle
    cases his with
    | nil => exact ⟨_, rfl⟩
    | cons hi his =>
      have hi_lt : i < mit.length := by
        simp only [List.length_cons] at hle
        omega
      obtain ⟨⟨lo', hi', mit', acc'⟩, hstep⟩ :=
        @trimStep_isOk mode o i lo hi mit acc hi_lt
      have hlen : mit'.length = mit.length := trimStep_ok_mit_length hstep
      have hle' : (i + 1) + min los.length his.length ≤ mit'.length := by
        simp only [List.length_cons] at hle
        omega
      obtain ⟨out, hrec⟩ := @ih his (i + 1) mit' acc' hle'
      rcases out with ⟨rlo, rhi, rmit, racc⟩
      refine ⟨(lo' :: rlo, hi' :: rhi, rmit, racc), ?_⟩
      simp only [trimLoop, hstep, hrec]

theorem trimLoop_reasons_length {mode : ℕ} {o : TrimOptions} :
    ∀ {los his : List HoParameter} {i : ℕ} {mit : List (List MitabParameter)}
      {acc : TrimAcc} {rlo rhi : List HoParameter}
      {rmit : List (List MitabParameter)} {racc : TrimAcc},
      trimLoop mode o los his i mit acc = .ok (rlo, rhi, rmit, racc) →
      racc.reasons.length =
        acc.reasons.length + (if o.logged then 1 else 0) * min los.length his.length := by
  intro los
  induction los with
  | nil =>
    intro his i mit acc rlo rhi rmit racc h
    simp only [trimLoop, Except.ok.injEq, Prod.mk.injEq] at h
    obtain ⟨-, -, -, h4⟩ := h
    simp [← h4]
  | cons lo los ih =>
    intro his i mit acc rlo rhi rmit racc h
    cases his with
    | nil =>
      simp only [trimLoop, Except.ok.injEq, Prod.mk.injEq] at h
      obtain ⟨-, -, -, h4⟩ := h
      simp [← h4]
    | cons hi his =>
      simp only [trimLoop] at h
      rcases hstep : trimStep mode o i lo hi mit acc with e | ⟨lo', hi', mit', acc'⟩
      · simp only [hstep] at h
        exact absurd h (by simp)
      · simp only [hstep] at h
        rcases hrec : trimLoop mode o los his (i + 1) mit' acc' with e |
          ⟨rlo', rhi', rmit', racc'⟩
        · simp only [hrec] at h
          exact absurd h (by simp)
        · simp only [hrec, Except.ok.injEq, Prod.mk.injEq] at h
          obtain ⟨-, -, -, h4⟩ := h
          rw [← h4, ih hrec, trimStep_reasons_length hstep]
          simp only [List.length_cons, Nat.succ_min_succ]
          rw [Nat.mul_succ]
          omega

theorem trimLoop_definitive_irrel (mode : ℕ) (o : TrimOptions) (b : Bool) :
    ∀ (los his : List HoParameter) (i : ℕ) (mit : List (List MitabParameter))
      (acc : TrimAcc),
      trimLoop mode { o with definitive := b } los his i mit acc =
        trimLoop mode o los his i mit acc := by
  intro los
  induction los with
  | nil => intro his i mit acc; rfl
  | cons lo los ih =>
    intro his i mit acc
    cases his with
    | nil => rfl
    | cons hi his =>
      simp only [trimLoop, trimStep_definitive_irrel]
      cases hstep : trimStep mode o i lo hi mit acc with
      | error e => rfl
      | ok out =>
        rcases out with ⟨lo', hi', mit', acc'⟩
        simp only [ih]

/-! ## Claims C2, C9, C10 -/

/-- Index-based removal keeps equal-length lists at equal lengths: which
positions survive depends only on the index. -/
theorem removeIdxs_length_eq {α β : Type} (m : List ℕ) :
    ∀ (l1 : List α) (l2 : List β) (k : ℕ), l1.length = l2.length →
      (((l1.enumFrom k).filter (fun p => !m.contains p.1)).map Prod.snd).length =
        (((l2.enumFrom k).filter (fun p => !m.contains p.1)).map Prod.snd).length := by
  intro l1
  induction l1 with
  | nil =>
    intro l2 k h
    cases l2 with
    | nil => rfl
    | cons b l2 => exact absurd h (by simp)
  | cons a l1 ih =>
    intro l2 k h
    cases l2 with
    | nil => exact absurd h (by simp)
    | cons b l2 =>
      simp only [List.length_cons, Nat.succ.injEq] at h
      simp only [List.enumFrom, List.filter_cons]
      by_cases hk : m.contains k = true
      · have hcond : (!m.contains k) = false := by rw [hk]; rfl
        simp only [hcond, Bool.false_eq_true, if_false]
        exact ih l2 (k + 1) h
      · have hcond : (!m.contains k) = true := by
          rcases hb : m.contains k with _ | _
          · rfl
          · exact absurd hb hk
        simp only [hcond, if_true, List.map_cons, List.length_cons]
        rw [ih l2 (k + 1) h]

/-- C2 (amended): the parallel-length invariant holds for the freshly
constructed empty set and is preserved by `add` and by `trim` (with or
without compaction, which also never throws under the invariant); it is
`remove` and the deserializer `from` that break it. -/
theorem c2_invariant_add_trim :
    HoParameterSet.new.lenInvariant ∧
    (∀ (s : HoParameterSet) (x y : List String),
      s.lenInvariant → (s.add x y).lenInvariant) ∧
    (∀ (mode : ℕ) (o : TrimOptions) (s : HoParameterSet), s.lenInvariant →
      ∃ s' rs, s.trimWith mode o = .ok (s', rs) ∧ s'.lenInvariant) := by
  refine ⟨⟨rfl, rfl⟩, ?_, ?_⟩
  · intro s x y h
    obtain ⟨h1, h2⟩ := h
    exact ⟨by simp [HoParameterSet.add, h1], by simp [HoParameterSet.add, h2]⟩
  · intro mode o s h
    obtain ⟨h1, h2⟩ := h
    have hle : 0 + min s.lowQueryParam.length s.highQueryParam.length ≤
        s.mitabCouples.length := by
      omega
    obtain ⟨⟨rlo, rhi, rmit, racc⟩, hloop⟩ :=
      @trimLoop_isOk mode o s.lowQueryParam s.highQueryParam 0 s.mitabCouples {} hle
    obtain ⟨l1, l2, l3⟩ := trimLoop_ok_lengths hloop
    by_cases hdef : o.definitive
    · refine ⟨{ lowQueryParam := removeIdxs rlo racc.to_remove,
                highQueryParam := removeIdxs rhi racc.to_remove,
                mitabCouples := removeIdxs rmit racc.to_remove,
                visible := true }, racc.reasons,
        by simp only [HoParameterSet.trimWith, hloop, hdef, if_true], ?_, ?_⟩
      · exact removeIdxs_length_eq racc.to_remove rlo rhi 0 (by omega)
      · exact removeIdxs_length_eq racc.to_remove rhi rmit 0 (by omega)
    · exact ⟨{ lowQueryParam := rlo, highQueryParam := rhi, mitabCouples := rmit,
               visible := true }, racc.reasons,
        by simp only [HoParameterSet.trimWith, hloop, hdef, Bool.false_eq_true, if_false],
        show rlo.length = rhi.length by omega,
        show rhi.length = rmit.length by omega⟩

/-- C2: witness — the invariant survives a default trim of the sample
set. -/
theorem c2_invariant_witness :
    ∃ s' rs, sampleSet.trimWith TAXON_EVERY {} = .ok (s', rs) ∧ s'.lenInvariant :=
  c2_invariant_add_trim.2.2 TAXON_EVERY {} sampleSet (by decide)

/-- C2 (counterexample): `remove` empties only `lowQueryParam` and
`highQueryParam` and `from` rebuilds only them, so both leave the three
sequences at different lengths on a nonempty set/snapshot. -/
theorem c2_remove_from_break_invariant :
    sampleSet.lenInvariant ∧
    ¬ (sampleSet.remove).lenInvariant ∧
    ¬ (HoParameterSet.fromSnapshot sampleFromObj).lenInvariant := by
  refine ⟨by decide, by decide, by decide⟩

/-- C9: with `definitive = false` a completed `trim` never changes the
lengths of the three parallel sequences; with `definitive = true` it
produces exactly the `definitive = false` result with the marked indices
(`trimMarked`) removed from all three sequences — and the same reason
list. -/
theorem c9_compact_removes_marked (mode : ℕ) (o : TrimOptions) (s : HoParameterSet) :
    (o.definitive = false → ∀ s' rs, s.trimWith mode o = .ok (s', rs) →
      s'.lowQueryParam.length = s.lowQueryParam.length ∧
      s'.highQueryParam.length = s.highQueryParam.length ∧
      s'.mitabCouples.length = s.mitabCouples.length) ∧
    (o.definitive = true → ∀ s' rs, s.trimWith mode o = .ok (s', rs) →
      ∃ s'' marked,
        s.trimWith mode { o with definitive := false } = .ok (s'', rs) ∧
        s.trimMarked mode o = .ok marked ∧
        s'.lowQueryParam = removeIdxs s''.lowQueryParam marked ∧
        s'.highQueryParam = removeIdxs s''.highQueryParam marked ∧
        s'.mitabCouples = removeIdxs s''.mitabCouples marked) := by
  constructor
  · intro hdef s' rs h
    unfold HoParameterSet.trimWith at h
    rcases hloop : trimLoop mode o s.lowQueryParam s.highQueryParam 0 s.mitabCouples {}
      with e | ⟨rlo, rhi, rmit, racc⟩
    · simp only [hloop] at h
      exact absurd h (by simp)
    · simp only [hloop, hdef, Bool.false_eq_true, if_false, Except.ok.injEq,
        Prod.mk.injEq] at h
      obtain ⟨hs', -⟩ := h
      obtain ⟨l1, l2, l3⟩ := trimLoop_ok_lengths hloop
      rw [← hs']
      exact ⟨l1, l2, l3⟩
  · intro hdef s' rs h
    unfold HoParameterSet.trimWith at h
    rcases hloop : trimLoop mode o s.lowQueryParam s.highQueryParam 0 s.mitabCouples {}
      with e | ⟨rlo, rhi, rmit, racc⟩
    · simp only [hloop] at h
      exact absurd h (by simp)
    · simp only [hloop, hdef, if_true, Except.ok.injEq, Prod.mk.injEq] at h
      obtain ⟨hs', hrs⟩ := h
      refine ⟨{ lowQueryParam := rlo, highQueryParam := rhi, mitabCouples := rmit,
                visible := true }, racc.to_remove, ?_, ?_, ?_, ?_, ?_⟩
      · have hirr := trimLoop_definitive_irrel mode o false s.lowQueryParam
          s.highQueryParam 0 s.mitabCouples {}
        simp only [HoParameterSet.trimWith, hirr, hloop, Bool.false_eq_true, if_false]
        rw [← hrs]
      · simp only [HoParameterSet.trimMarked, hloop]
      · rw [← hs']
      · rw [← hs']
      · rw [← hs']

/-- C9: witness — a default trim of the sample set keeps the lengths, and
a compacting trim that invalidates the row removes exactly the marked
index from all three sequences. -/
theorem c9_compact_witness :
    (∀ s' rs, sampleSet.trimWith TAXON_EVERY {} = .ok (s', rs) →
      s'.lowQueryParam.length = sampleSet.lowQueryParam.length ∧
      s'.highQueryParam.length = sampleSet.highQueryParam.length ∧
      s'.mitabCouples.length = sampleSet.mitabCouples.length) ∧
    (∀ s' rs,
      sampleSet.trimWith TAXON_EVERY { definitive := true } = .ok (s', rs) →
      ∃ s'' marked,
        sampleSet.trimWith TAXON_EVERY
            { ({ definitive := true } : TrimOptions) with definitive := false } =
          .ok (s'', rs) ∧
        sampleSet.trimMarked TAXON_EVERY { definitive := true } = .ok marked ∧
        s'.lowQueryParam = removeIdxs s''.lowQueryParam marked ∧
        s'.highQueryParam = removeIdxs s''.highQueryParam marked ∧
        s'.mitabCouples = removeIdxs s''.mitabCouples marked) :=
  ⟨(c9_compact_removes_marked TAXON_EVERY {} sampleSet).1 rfl,
   (c9_compact_removes_marked TAXON_EVERY { definitive := true } sampleSet).2 rfl⟩

/-- C10: the reason list returned by `trim` does not depend on the
`definitive` (compact) option, and with `logged = true` a completed `trim`
returns exactly one reason pair per iterated position — the zip of the two
homology sequences, i.e. the shorter of the two lengths. -/
theorem c10_logged_reason_count (mode : ℕ) (o : TrimOptions) (s : HoParameterSet) :
    ((s.trimWith mode { o with definitive := true }).map Prod.snd =
      (s.trimWith mode { o with definitive := false }).map Prod.snd) ∧
    (o.logged = true → ∀ s' rs, s.trimWith mode o = .ok (s', rs) →
      rs.length = min s.lowQueryParam.length s.highQueryParam.length) := by
  constructor
  · have h1 := trimLoop_definitive_irrel mode o true s.lowQueryParam
      s.highQueryParam 0 s.mitabCouples {}
    have h2 := trimLoop_definitive_irrel mode o false s.lowQueryParam
      s.highQueryParam 0 s.mitabCouples {}
    unfold HoParameterSet.trimWith
    rw [h1, h2]
    rcases hloop : trimLoop mode o s.lowQueryParam s.highQueryParam 0 s.mitabCouples {}
      with e | ⟨rlo, rhi, rmit, racc⟩
    · rfl
    · rfl
  · intro hlog s' rs h
    unfold HoParameterSet.trimWith at h
    rcases hloop : trimLoop mode o s.lowQueryParam s.highQueryParam 0 s.mitabCouples {}
      with e | ⟨rlo, rhi, rmit, racc⟩
    · simp only [hloop] at h
      exact absurd h (by simp)
    · have hlen := trimLoop_reasons_length hloop
      simp only [hlog, if_true] at hlen
      simp only [hloop] at h
      have hrs : rs = racc.reasons := by
        by_cases hdef : o.definitive <;>
          simp only [hdef, if_true, Bool.false_eq_true, if_false, Except.ok.injEq,
            Prod.mk.injEq] at h <;>
          exact h.2.symm
      rw [hrs]
      simpa using hlen

/-- C10: witness — a logged trim of the one-row sample set returns exactly
one reason pair. -/
theorem c10_logged_reason_count_witness :
    ∀ s' rs, sampleSet.trimWith TAXON_EVERY { logged := true } = .ok (s', rs) →
      rs.length = min sampleSet.lowQueryParam.length sampleSet.highQueryParam.length :=
  (c10_logged_reason_count TAXON_EVERY { logged := true } sampleSet).2 rfl

/-! ## Claim C3: logged and plain threshold evaluation agree on values
that are not NaN -/

/-- For every non-`NaN` value — finite or infinite — the strict `<` used
by the logged branch is the exact complement of the `>=` used by the
plain branch. -/
theorem jLt_eq_not_jGe (v : JsNum) (t : Frac) (h : v.isNaN = false) :
    jLt v t = !jGe v t := by
  cases v with
  | nan => exact absurd h (by simp [JsNum.isNaN])
  | posInf => rfl
  | negInf => rfl
  | fin a =>
    simp only [jLt, jGe, ← decide_not]
    exact decide_eq_decide.mpr (by omega)

/-- For every non-`NaN` value the strict `>` used by the logged branch is
the exact complement of the `<=` used by the plain branch. -/
theorem jGt_eq_not_jLe (v : JsNum) (t : Frac) (h : v.isNaN = false) :
    jGt v t = !jLe v t := by
  cases v with
  | nan => exact absurd h (by simp [JsNum.isNaN])
  | posInf => rfl
  | negInf => rfl
  | fin a =>
    simp only [jGt, jLe, ← decide_not]
    exact decide_eq_decide.mpr (by omega)

/-- On a record with no `NaN` derived value, the `logged` threshold
branch computes the same record (same flag) as the plain branch. -/
theorem evalLogged_fst {o : TrimOptions} {p : HoParameter}
    (h : p.nanFreeDerived = true) : (evalLogged o p).1 = evalPlain o p := by
  unfold HoParameter.nanFreeDerived at h
  simp only [Bool.and_eq_true, Bool.not_eq_true'] at h
  obtain ⟨⟨⟨h1, h2⟩, h3⟩, h4⟩ := h
  unfold evalLogged evalPlain
  rw [jLt_eq_not_jGe _ _ h1, jLt_eq_not_jGe _ _ h2, jLt_eq_not_jGe _ _ h3,
    jGt_eq_not_jLe _ _ h4]
  simp only [Bool.not_or, Bool.not_not]

/-- The two forms of the threshold stage, by computation. -/
theorem trimThresholds_logged (o : TrimOptions) (lo hi : HoParameter) (acc : TrimAcc) :
    trimThresholds { o with logged := true } lo hi acc =
      ((evalLogged o lo).1, (evalLogged o hi).1,
        { acc with
          reasons := acc.reasons ++ [((evalLogged o lo).2, (evalLogged o hi).2)] }) := rfl

/-- The plain form of the threshold stage. -/
theorem trimThresholds_plain (o : TrimOptions) (lo hi : HoParameter) (acc : TrimAcc) :
    trimThresholds { o with logged := false } lo hi acc =
      (evalPlain o lo, evalPlain o hi, acc) := rfl

/-- The later stages never read `logged`. -/
theorem trimResetMitab_logged_irrel (o : TrimOptions) (b : Bool) (i : ℕ)
    (mit : List (List MitabParameter)) :
    trimResetMitab { o with logged := b } i mit = trimResetMitab o i mit := rfl

/-- `trimMethodTaxon` never reads `logged`. -/
theorem trimMethodTaxon_logged_irrel (mode : ℕ) (o : TrimOptions) (b : Bool) (i : ℕ)
    (lo1 hi1 : HoParameter) (mit1 : List (List MitabParameter)) :
    trimMethodTaxon mode { o with logged := b } i lo1 hi1 mit1 =
      trimMethodTaxon mode o i lo1 hi1 mit1 := rfl

/-- `trimDedup` never reads `logged`. -/
theorem trimDedup_logged_irrel (o : TrimOptions) (b : Bool) (i : ℕ)
    (lo3 hi3 : HoParameter) (acc3 : TrimAcc) :
    trimDedup { o with logged := b } i lo3 hi3 acc3 = trimDedup o i lo3 hi3 acc3 := rfl

/-- The propagation stage ignores the reason list: on accumulators that
agree outside `reasons`, it returns equal records and sequences and
accumulators that again agree outside `reasons`. -/
theorem trimPropagate_strip (i : ℕ) (lo2 hi2 : HoParameter)
    (mit2 : List (List MitabParameter)) {a1 a2 : TrimAcc}
    (ht : a1.to_remove = a2.to_remove) (hh : a1.hashes = a2.hashes) :
    (trimPropagate i lo2 hi2 mit2 a1).1 = (trimPropagate i lo2 hi2 mit2 a2).1 ∧
    (trimPropagate i lo2 hi2 mit2 a1).2.1 = (trimPropagate i lo2 hi2 mit2 a2).2.1 ∧
    (trimPropagate i lo2 hi2 mit2 a1).2.2.1 = (trimPropagate i lo2 hi2 mit2 a2).2.2.1 ∧
    ((trimPropagate i lo2 hi2 mit2 a1).2.2.2).to_remove =
      ((trimPropagate i lo2 hi2 mit2 a2).2.2.2).to_remove ∧
    ((trimPropagate i lo2 hi2 mit2 a1).2.2.2).hashes =
      ((trimPropagate i lo2 hi2 mit2 a2).2.2.2).hashes := by
  simp only [trimPropagate]
  split <;> simp [ht, hh]

/-- The duplicate-detection stage likewise ignores `reasons`. -/
theorem trimDedup_strip (o : TrimOptions) (i : ℕ) (lo3 hi3 : HoParameter)
    {a1 a2 : TrimAcc} (ht : a1.to_remove = a2.to_remove)
    (hh : a1.hashes = a2.hashes) :
    (trimDedup o i lo3 hi3 a1).to_remove = (trimDedup o i lo3 hi3 a2).to_remove ∧
    (trimDedup o i lo3 hi3 a1).hashes = (trimDedup o i lo3 hi3 a2).hashes := by
  simp only [trimDedup]
  split
  · rw [hh]
    split <;> simp [ht, hh]
  · exact ⟨ht, hh⟩

/-- One loop iteration with `logged = true` computes, outside the reason
list, exactly what the `logged = false` iteration computes, provided
neither record has a `NaN` derived value. -/
theorem trimStep_logged_strip {mode : ℕ} {o : TrimOptions} {i : ℕ} {lo hi : HoParameter}
    {mit : List (List MitabParameter)} {acc1 acc2 : TrimAcc}
    (hlo : lo.nanFreeDerived = true) (hhi : hi.nanFreeDerived = true)
    (ht : acc1.to_remove = acc2.to_remove) (hh : acc1.hashes = acc2.hashes) :
    (trimStep mode { o with logged := true } i lo hi mit acc1).map
        (fun out => (out.1, out.2.1, out.2.2.1, out.2.2.2.to_remove, out.2.2.2.hashes)) =
      (trimStep mode { o with logged := false } i lo hi mit acc2).map
        (fun out => (out.1, out.2.1, out.2.2.1, out.2.2.2.to_remove, out.2.2.2.hashes)) := by
  simp only [trimStep, trimThresholds_logged, trimThresholds_plain,
    trimResetMitab_logged_irrel, trimMethodTaxon_logged_irrel, trimDedup_logged_irrel,
    evalLogged_fst hlo, evalLogged_fst hhi]
  rcases hmt : trimMethodTaxon mode o i (evalPlain o lo) (evalPlain o hi)
    (trimResetMitab o i mit) with e | ⟨lo2, hi2, mit2⟩
  · simp [hmt]
  · simp only [hmt]
    obtain ⟨p1, p2, p3, p4, p5⟩ :=
      @trimPropagate_strip i lo2 hi2 mit2
        { acc1 with
          reasons := acc1.reasons ++ [((evalLogged o lo).2, (evalLogged o hi).2)] }
        acc2 ht hh
    obtain ⟨d1, d2⟩ :=
      @trimDedup_strip o i
        (trimPropagate i lo2 hi2 mit2
          { acc1 with
            reasons := acc1.reasons ++ [((evalLogged o lo).2, (evalLogged o hi).2)] }).1
        (trimPropagate i lo2 hi2 mit2
          { acc1 with
            reasons := acc1.reasons ++ [((evalLogged o lo).2, (evalLogged o hi).2)] }).2.1
        ((trimPropagate i lo2 hi2 mit2
          { acc1 with
            reasons := acc1.reasons ++ [((evalLogged o lo).2, (evalLogged o hi).2)] }).2.2.2)
        ((trimPropagate i lo2 hi2 mit2 acc2).2.2.2) p4 p5
    simp only [Except.map, Except.ok.injEq, Prod.mk.injEq]
    refine ⟨p1, p2, p3, ?_, ?_⟩
    · rw [← p1, ← p2]
      exact d1
    · rw [← p1, ← p2]
      exact d2

/-- The whole loop with `logged = true` computes, outside the reason list,
exactly what the `logged = false` loop computes, when no iterated record
has a `NaN` derived value. -/
theorem trimLoop_logged_strip {mode : ℕ} {o : TrimOptions} :
    ∀ {los his : List HoParameter} {i : ℕ} {mit : List (List MitabParameter)}
      {acc1 acc2 : TrimAcc},
      (∀ p ∈ los, p.nanFreeDerived = true) → (∀ p ∈ his, p.nanFreeDerived = true) →
      acc1.to_remove = acc2.to_remove → acc1.hashes = acc2.hashes →
      (trimLoop mode { o with logged := true } los his i mit acc1).map
          (fun out => (out.1, out.2.1, out.2.2.1,
            out.2.2.2.to_remove, out.2.2.2.hashes)) =
        (trimLoop mode { o with logged := false } los his i mit acc2).map
          (fun out => (out.1, out.2.1, out.2.2.1,
            out.2.2.2.to_remove, out.2.2.2.hashes)) := by
  intro los
  induction los with
  | nil =>
    intro his i mit acc1 acc2 _ _ ht hh
    simp [trimLoop, Except.map, ht, hh]
  | cons lo los ih =>
    intro his i mit acc1 acc2 hlo hhi ht hh
    cases his with
    | nil => simp [trimLoop, Except.map, ht, hh]
    | cons hi his =>
      have hstep := @trimStep_logged_strip mode o i lo hi mit acc1 acc2
        (hlo lo (List.mem_cons_self lo los)) (hhi hi (List.mem_cons_self hi his)) ht hh
      rcases h1 : trimStep mode { o with logged := true } i lo hi mit acc1 with e1 |
        ⟨lo1, hi1, mit1, accA⟩
      · rw [h1] at hstep
        rcases h2 : trimStep mode { o with logged := false } i lo hi mit acc2 with e2 |
          out
        · rw [h2] at hstep
          simp only [Except.map, Except.error.injEq] at hstep
          simp [trimLoop, h1, h2, hstep]
        · rw [h2] at hstep
          exact absurd hstep (by simp [Except.map])
      · rw [h1] at hstep
        rcases h2 : trimStep mode { o with logged := false } i lo hi mit acc2 with e2 |
          ⟨lo2, hi2, mit2, accB⟩
        · rw [h2] at hstep
          exact absurd hstep (by simp [Except.map])
        · rw [h2] at hstep
          simp only [Except.map, Except.ok.injEq, Prod.mk.injEq] at hstep
          obtain ⟨e1, e2, e3, e4, e5⟩ := hstep
          subst e1
          subst e2
          subst e3
          have hrec := @ih his (i + 1) mit1 accA accB
            (fun p hp => hlo p (List.mem_cons_of_mem lo hp))
            (fun p hp => hhi p (List.mem_cons_of_mem hi hp)) e4 e5
          simp only [trimLoop, h1, h2]
          rcases r1 : trimLoop mode { o with logged := true } los his (i + 1) mit1 accA
            with f1 | ⟨rlo1, rhi1, rmit1, racc1⟩
          · rw [r1] at hrec
            rcases r2 : trimLoop mode { o with logged := false } los his (i + 1) mit1
              accB with f2 | out
            · rw [r2] at hrec
            · rw [r2] at hrec
              exact absurd hrec (by simp [Except.map])
          · rw [r1] at hrec
            rcases r2 : trimLoop mode { o with logged := false } los his (i + 1) mit1
              accB with f2 | ⟨rlo2, rhi2, rmit2, racc2⟩
            · rw [r2] at hrec
              exact absurd hrec (by simp [Except.map])
            · rw [r2] at hrec
              simp only [Except.map, Except.ok.injEq, Prod.mk.injEq] at hrec
              obtain ⟨f1, f2, f3, f4, f5⟩ := hrec
              simp only [Except.map, Except.ok.injEq, Prod.mk.injEq]
              exact ⟨by rw [f1], by rw [f2], f3, f4, f5⟩

/-- C3 (amended): for identical thresholds and filters, `trim` with
`logged = false` produces exactly the same mutated set — validity flags
included — as `trim` with `logged = true`, provided no record has a `NaN`
derived value (infinities are fine: the strict comparisons of the logged
branch complement the non-strict ones of the plain branch on every
non-`NaN` value, `±Infinity` included).  On a `NaN` derived value the two
branches disagree, see the counterexample. -/
theorem c3_logged_agrees_nan_free (mode : ℕ) (o : TrimOptions) (s : HoParameterSet)
    (hlo : ∀ p ∈ s.lowQueryParam, p.nanFreeDerived = true)
    (hhi : ∀ p ∈ s.highQueryParam, p.nanFreeDerived = true) :
    (s.trimWith mode { o with logged := true }).map Prod.fst =
      (s.trimWith mode { o with logged := false }).map Prod.fst := by
  have h := @trimLoop_logged_strip mode o s.lowQueryParam s.highQueryParam 0
    s.mitabCouples {} {} hlo hhi rfl rfl
  unfold HoParameterSet.trimWith
  rcases r1 : trimLoop mode { o with logged := true } s.lowQueryParam s.highQueryParam 0
    s.mitabCouples {} with e1 | ⟨rlo1, rhi1, rmit1, racc1⟩
  · rw [r1] at h
    rcases r2 : trimLoop mode { o with logged := false } s.lowQueryParam
      s.highQueryParam 0 s.mitabCouples {} with e2 | out
    · rw [r2] at h
    · rw [r2] at h
      exact absurd h (by simp [Except.map])
  · rw [r1] at h
    rcases r2 : trimLoop mode { o with logged := false } s.lowQueryParam
      s.highQueryParam 0 s.mitabCouples {} with e2 | ⟨rlo2, rhi2, rmit2, racc2⟩
    · rw [r2] at h
      exact absurd h (by simp [Except.map])
    · rw [r2] at h
      simp only [Except.map, Except.ok.injEq, Prod.mk.injEq] at h
      obtain ⟨g1, g2, g3, g4, g5⟩ := h
      subst g1
      subst g2
      subst g3
      have hd1 : ({ o with logged := true } : TrimOptions).definitive = o.definitive := rfl
      have hd2 : ({ o with logged := false } : TrimOptions).definitive = o.definitive := rfl
      rw [hd1, hd2]
      by_cases hdef : o.definitive <;> simp [hdef, g4, Except.map]

/-- C3 (counterexample): on a record with a `NaN` derived value
(similarity score `"x"`), `trim` with `logged = true` leaves the record
valid (the strict `<` comparison on `NaN` never fires) while `trim` with
`logged = false` invalidates it (the `>=` comparison on `NaN` is false) —
identical thresholds, different flags. -/
theorem c3_nan_flags_differ :
    ((sNanSim.trim { logged := true }).map
        (fun r => r.1.lowQueryParam.map (fun p => p.valid)) = .ok [true]) ∧
    ((sNanSim.trim { logged := false }).map
        (fun r => r.1.lowQueryParam.map (fun p => p.valid)) = .ok [false]) := by
  exact ⟨by decide, by decide⟩

/-- C3: witness — on the `NaN`-free sample set the two modes agree. -/
theorem c3_logged_agrees_witness :
    (sampleSet.trimWith TAXON_EVERY { ({} : TrimOptions) with logged := true }).map
        Prod.fst =
      (sampleSet.trimWith TAXON_EVERY { ({} : TrimOptions) with logged := false }).map
        Prod.fst :=
  c3_logged_agrees_nan_free TAXON_EVERY {} sampleSet (by decide) (by decide)

/-! ## Claim C4: NaN derived values -/

/-- In the plain branch a `NaN` derived value fails its `>=`/`<=`
comparison, so the record comes out invalid. -/
theorem evalPlain_nan {o : TrimOptions} {p : HoParameter}
    (h : p.simPct = .nan ∨ p.idPct = .nan ∨ p.cvPct = .nan ∨ p.eValue = .nan) :
    (evalPlain o p).valid = false := by
  unfold evalPlain
  rcases h with h | h | h | h <;> simp [h, jGe, jLe]

/-- In the logged branch the record stays valid whenever none of the four
strict comparisons fires — which is in particular the case for every
`NaN` derived value, on which `<` and `>` are always false. -/
theorem evalLogged_valid_of_nofail {o : TrimOptions} {p : HoParameter}
    (h1 : jLt p.simPct o.simPct = false) (h2 : jLt p.idPct o.idPct = false)
    (h3 : jLt p.cvPct o.cvPct = false) (h4 : jGt p.eValue o.eValue = false) :
    ((evalLogged o p).1).valid = true := by
  unfold evalLogged
  simp [h1, h2, h3, h4]

/-- Removing no indices keeps the list. -/
theorem removeIdxs_nil {α : Type} (l : List α) : removeIdxs l [] = l := by
  unfold removeIdxs
  have hp : (fun p : ℕ × α => !([] : List ℕ).contains p.1) = fun _ => true := by
    funext p
    rfl
  rw [hp, List.filter_true, List.enum_map_snd]

/-- C4 (amended): on a one-row set whose low record has a `NaN` derived
value and with no method/taxon filters, the NON-explain path of `trim`
sets the record's `valid` flag to false (`NaN` fails every `>=`/`<=`
threshold comparison) and never throws; but in the explain (`logged`)
path the strict `<`/`>` comparisons never fire on `NaN`, so when no
criterion of either record strictly fails, the row keeps `valid = true`
— the two paths disagree on `NaN` input.  (An infinite derived value is
NOT special: `+Infinity` satisfies `>= threshold` and behaves like an
ordinary large number in both paths.) -/
theorem c4_nonfinite_invalidates_plain_not_logged (mode : ℕ) (o : TrimOptions)
    (lo hi : HoParameter)
    (hem : o.exp_methods = none) (htx : o.taxons = none)
    (hnan : lo.simPct = .nan ∨ lo.idPct = .nan ∨ lo.cvPct = .nan ∨
      lo.eValue = .nan) :
    ((HoParameterSet.trimWith mode { o with logged := false, definitive := false }
        { lowQueryParam := [lo], highQueryParam := [hi], mitabCouples := [[]],
          visible := true }).map
        (fun r => r.1.lowQueryParam.map (fun p => p.valid)) = .ok [false]) ∧
    (jLt lo.simPct o.simPct = false → jLt lo.idPct o.idPct = false →
      jLt lo.cvPct o.cvPct = false → jGt lo.eValue o.eValue = false →
      jLt hi.simPct o.simPct = false → jLt hi.idPct o.idPct = false →
      jLt hi.cvPct o.cvPct = false → jGt hi.eValue o.eValue = false →
      (HoParameterSet.trimWith mode { o with logged := true }
        { lowQueryParam := [lo], highQueryParam := [hi], mitabCouples := [[]],
          visible := true }).map
        (fun r => r.1.lowQueryParam.map (fun p => p.valid)) = .ok [true]) := by
  constructor
  · have hv : ∀ o' : TrimOptions, (evalPlain o' lo).valid = false := fun _ =>
      evalPlain_nan hnan
    by_cases hdi : o.destroy_identical <;>
      simp [HoParameterSet.trimWith, trimLoop, trimStep, trimThresholds, trimResetMitab,
        trimMethodTaxon, trimPropagate, trimDedup, hem, htx, hv, hdi, Except.map]
  · intro k1 k2 k3 k4 k5 k6 k7 k8
    have hvl : ∀ (em tx : Option (List String)) (d lg di : Bool),
        ((evalLogged
          (TrimOptions.mk o.simPct o.idPct o.cvPct o.eValue em tx d lg di) lo).1).valid =
          true :=
      fun em tx d lg di => evalLogged_valid_of_nofail k1 k2 k3 k4
    have hvh : ∀ (em tx : Option (List String)) (d lg di : Bool),
        ((evalLogged
          (TrimOptions.mk o.simPct o.idPct o.cvPct o.eValue em tx d lg di) hi).1).valid =
          true :=
      fun em tx d lg di => evalLogged_valid_of_nofail k5 k6 k7 k8
    by_cases hdi : o.destroy_identical <;> by_cases hdef : o.definitive <;>
      simp [HoParameterSet.trimWith, trimLoop, trimStep, trimThresholds, trimResetMitab,
        trimMethodTaxon, trimPropagate, trimDedup, hem, htx, hvl, hvh, hdi, hdef,
        removeIdxs_nil, Except.map]

/-- C4 (counterexample): a record with non-numeric e-value (`data[9] =
"x"`, so `eValue` is `NaN`) is invalidated by the non-explain path but
kept valid by the explain path — the claim that both paths set the flag
to false is refuted on the explain side. -/
theorem c4_nan_not_invalidated_when_logged :
    ((sNanEv.trim { logged := true }).map
        (fun r => r.1.lowQueryParam.map (fun p => p.valid)) = .ok [true]) ∧
    ((sNanEv.trim { logged := false }).map
        (fun r => r.1.lowQueryParam.map (fun p => p.valid)) = .ok [false]) := by
  exact ⟨by decide, by decide⟩

/-- C4: witness for the amended theorem at the concrete `NaN`-e-value
row. -/
theorem c4_nonfinite_witness :
    ((HoParameterSet.trimWith TAXON_EVERY
        { ({} : TrimOptions) with logged := false, definitive := false }
        { lowQueryParam := [loNanEv], highQueryParam := [loRow50],
          mitabCouples := [[]], visible := true }).map
        (fun r => r.1.lowQueryParam.map (fun p => p.valid)) = .ok [false]) ∧
    ((HoParameterSet.trimWith TAXON_EVERY { ({} : TrimOptions) with logged := true }
        { lowQueryParam := [loNanEv], highQueryParam := [loRow50],
          mitabCouples := [[]], visible := true }).map
        (fun r => r.1.lowQueryParam.map (fun p => p.valid)) = .ok [true]) :=
  ⟨(c4_nonfinite_invalidates_plain_not_logged TAXON_EVERY {} loNanEv loRow50 rfl rfl
      (by decide)).1,
   (c4_nonfinite_invalidates_plain_not_logged TAXON_EVERY {} loNanEv loRow50 rfl rfl
      (by decide)).2 (by decide) (by decide) (by decide) (by decide) (by decide)
      (by decide) (by decide) (by decide)⟩

/-! ## Claim C1: trim can throw -/

/-- C1: `trim` does NOT always complete without throwing.  On a set
reconstructed by the static `from` (which leaves `mitabCouples` empty), a
trim with a taxon filter reaches, at the first index whose thresholds
pass, the unguarded `mitab_lines_of.filter(...)` of line 218 with
`this.mitabCouples[0]` being `undefined`, and throws a `TypeError` — the
modelled `.error .mitabUndefined`.  The deserialized set is nonempty and
both its rows pass the default thresholds. -/
theorem c1_trim_throws_after_from :
    (HoParameterSet.fromSnapshot sampleFromObj).trim { taxons := some ["9606"] } =
      .error .mitabUndefined ∧
    (HoParameterSet.fromSnapshot sampleFromObj).lowQueryParam.length = 1 ∧
    ((HoParameterSet.fromSnapshot sampleFromObj).trim {}).map
      (fun r => r.1.lowQueryParam.map (fun p => p.valid)) = .ok [true] := by
  refine ⟨by decide, by decide, by decide⟩
